import Mathlib

/-!
# The head-node namespace of 2020-dfs

A shallow embedding of `head-node/src/common/folder.go`: the `Folder` entity
with its create / delete / replace protocol, its lookups and its queries, of
the read container of `head-node/manager/dfs_read_container.go` and of the wire
error of `data-node/src/common/error.go`, followed by their properties.

Conventions of the embedding.

* A Go `string` is the list of its characters (`Str`); `strings.Compare(a, b) == 0`
  is equality and `a < b` is the lexicographic order, which on UTF-8 text is the
  order of the code points.
* A method with receiver `f *Folder` that mutates `f` returns the folder after
  the call. The error result is an `Option Err`, `none` standing for `nil`.
* A commit handler is a function from its argument to its error result; the
  arguments it was invoked with are recorded in the `calls` field of the
  outcome, so that "the handler was not invoked" is `calls = []`. Handlers are
  taken not to write through the pointer they receive.
* `[]*File` and `[]*FolderShadow` are lists of records: slices hold no `nil`
  entry, and a `*File` argument that may be `nil` is an `Option File`.
* `time.Now()` is a clock reading passed in by the caller.
* `CloneInto` alone is embedded over a memory of folder objects and file
  records, where a pointer is an address: what it promises is about pointers.
* A run-time panic is an outcome of its own (`none`, or `ReadOutcome.panicked`).
* `json.Decoder.Decode` belongs to the Go standard library and is an argument
  of `NewError`.
-/

namespace Dfs

/-! ## Strings, errors, time -/

/-- A Go string. -/
abbrev Str := List Char

/-- A `time.Time` value, as a clock reading. -/
abbrev Time := Nat

/-- The `error` values the namespace deals with: the three sentinels of package
`os` that `folder.go` returns itself, and whatever else a handler reports. -/
inductive Err where
  | ErrInvalid
  | ErrExist
  | ErrNotExist
  | other (msg : Str)
deriving DecidableEq

/-! ## Path utilities

`folder.go` calls `CorrectPath`, `Split`, `Join` and the constant
`pathSeparator` of the same package; their file is not part of the sources at
hand. -/

/-- Modelled from the spec: the constant `pathSeparator`, "a path-separator
character"; hierarchical paths are separated by the slash. -/
def pathSeparator : Char := '/'

/-- The non-empty segments of a path: the pieces between separators. -/
def segments (p : Str) : List Str :=
  (p.splitOn pathSeparator).filter (fun seg => !seg.isEmpty)

/-- The absolute path made of the given segments: `/` for none, `/a/b` for
`a`, `b`. -/
def render (segs : List Str) : Str :=
  pathSeparator :: [pathSeparator].intercalate segs

/-- Modelled from the spec: the path normalizer `CorrectPath`, missing from the
sources: "given a raw string, returns a canonical absolute form", normalizing
redundant separators. The result always starts with the separator. -/
def CorrectPath (folderPath : Str) : Str :=
  render (segments folderPath)

/-- Modelled from the spec: `Split`, missing from the sources: the normalizer
"can split it into (parent, leaf)". The leaf of the root is empty. -/
def Split (path : Str) : Str × Str :=
  let segs := segments path
  (render segs.dropLast, segs.getLast?.getD [])

/-- Modelled from the spec: `Join`, missing from the sources: the parent's path
"joined with" a name, in canonical form. -/
def Join (parent name : Str) : Str :=
  CorrectPath (parent ++ pathSeparator :: name)

/-! ## Entities -/

/-- Modelled from the spec: the type `FolderShadow`, missing from the sources:
"Attributes: `name`, `full` path. Purely a reference". -/
structure FolderShadow where
  Full : Str
  Name : Str
deriving DecidableEq

/-- Modelled from the spec: the type `File`, missing from the sources: "`name`,
`size` (bytes, non-negative), `created`, `modified`, `locked`, plus an opaque
reference to where content is physically stored". `Size` is a `uint64`. -/
structure File where
  Name : Str
  Size : Nat
  Created : Time
  Modified : Time
  Locked : Bool
  Content : List Nat
deriving DecidableEq

/-- The Go type `FolderShadows`, a slice of shadows. -/
abbrev FolderShadows := List FolderShadow

/-- The Go type `Files`, a slice of file records. -/
abbrev Files := List File

/-- The struct `Folder` of `folder.go`. -/
structure Folder where
  Full : Str
  Name : Str
  Created : Time
  Modified : Time
  Folders : FolderShadows
  Files : Files
deriving DecidableEq

/-- Modelled from the spec: the constructor `NewFolderShadow`, missing from the
sources: a shadow holds the child's normalized full path and its leaf name. -/
def NewFolderShadow (folderPath : Str) : FolderShadow :=
  let folderPath := CorrectPath folderPath
  { Full := folderPath, Name := (Split folderPath).2 }

/-- Modelled from the spec: the constructor `newFile`, missing from the
sources: "a new File record (zero size, current timestamps, unlocked)". -/
def newFile (name : Str) (now : Time) : File :=
  { Name := name, Size := 0, Created := now, Modified := now, Locked := false, Content := [] }

/-- Modelled from the spec: `sort.Sort` on `FolderShadows`, whose `Less` is
missing from the sources: the children are "sorted by name". `sort.Sort` leaves
no entry before one of a smaller name; it is not stable, and insertion sort
stands for it here (on pairwise distinct names every sort gives the same
list). -/
def FolderShadows.Sort (l : FolderShadows) : FolderShadows :=
  l.insertionSort (fun a b => a.Name ≤ b.Name)

/-- Modelled from the spec: `sort.Sort` on `Files`, whose `Less` is missing
from the sources: the files are "sorted by name". See `FolderShadows.Sort`. -/
def Files.Sort (l : Files) : Files :=
  l.insertionSort (fun a b => a.Name ≤ b.Name)

/-- What a mutation with a commit handler leaves behind: the folder after the
call, the error it returned, and the arguments the handler was invoked with. -/
structure Outcome (α : Type) where
  folder : Folder
  err : Option Err
  calls : List α

/-- What `NewFile` leaves behind: the folder after the call and the two
results `(*File, error)`. -/
structure FileOutcome where
  folder : Folder
  file : Option File
  err : Option Err

/-- The loop `for i, x := range xs` with the test
`strings.Compare(x.Name, name) == 0`: the index and the entry at which the
test first succeeds, if it ever does. -/
def rangeFind {α : Type} (key : α → Str) (name : Str) : List α → Option (Nat × α)
  | [] => none
  | x :: xs =>
    if key x = name then some (0, x)
    else (rangeFind key name xs).map (fun p => (p.1 + 1, p.2))

set_option linter.dupNamespace false

/-! ## The operations of `folder.go` -/

/-- The function `NewFolder(folderPath)`; the two calls of `time.Now()` are the
readings `created` and `modified`. -/
def NewFolder (folderPath : Str) (created modified : Time) : Folder :=
  let folderPath := CorrectPath folderPath
  let name := (Split folderPath).2
  { Full := folderPath, Name := name, Created := created, Modified := modified,
    Folders := [], Files := [] }

/-- The method `Folder.Folder`: the full path of the child folder `name`. -/
def Folder.Folder (f : Dfs.Folder) (name : Str) : Option Str :=
  match rangeFind FolderShadow.Name name f.Folders with
  | some _ => some (Join f.Full name)
  | none => none

/-- The method `Folder.File`: the first file record named `name`. -/
def Folder.File (f : Dfs.Folder) (name : Str) : Option Dfs.File :=
  match rangeFind Dfs.File.Name name f.Files with
  | some (_, sf) => some sf
  | none => none

/-- The method `Folder.exists`: a file or a folder shadow has the name. -/
def Folder.exists (f : Dfs.Folder) (name : Str) : Bool :=
  if (f.File name).isSome then true
  else if (f.Folder name).isSome then true
  else false

/-- The method `Folder.NewFolder`. The slice `name[1:]` drops the separator
that `CorrectPath` puts first. -/
def Folder.NewFolder (f : Dfs.Folder) (name : Str)
    (newFolderHandler : FolderShadow → Option Err) : Outcome FolderShadow :=
  let name := CorrectPath name
  let name := name.drop 1
  if name.length = 0 then ⟨f, some Err.ErrInvalid, []⟩
  else if pathSeparator ∈ name then ⟨f, some Err.ErrInvalid, []⟩
  else if f.exists name then ⟨f, some Err.ErrExist, []⟩
  else
    let folderShadow := NewFolderShadow (Join f.Full name)
    match newFolderHandler folderShadow with
    | some err => ⟨f, some err, [folderShadow]⟩
    | none =>
      ⟨{ f with Folders := FolderShadows.Sort (f.Folders ++ [folderShadow]) }, none,
        [folderShadow]⟩

/-- The method `Folder.NewFile`; `now` is the clock reading `newFile` takes. -/
def Folder.NewFile (f : Dfs.Folder) (name : Str) (now : Time) : FileOutcome :=
  let name := CorrectPath name
  let name := name.drop 1
  if name.length = 0 then ⟨f, none, some Err.ErrInvalid⟩
  else if pathSeparator ∈ name then ⟨f, none, some Err.ErrInvalid⟩
  else if f.exists name then ⟨f, none, some Err.ErrExist⟩
  else
    let nf := newFile name now
    ⟨{ f with Files := Files.Sort (f.Files ++ [nf]) }, some nf, none⟩

/-- The method `Folder.ReplaceFile`. -/
def Folder.ReplaceFile (f : Dfs.Folder) (name : Str) (file : Option Dfs.File) : Dfs.Folder :=
  match rangeFind Dfs.File.Name name f.Files with
  | some (i, _) =>
    match file with
    | none => { f with Files := Files.Sort (f.Files.take i ++ f.Files.drop (i + 1)) }
    | some r => { f with Files := Files.Sort (f.Files.set i r) }
  | none =>
    match file with
    | none => f
    | some r => { f with Files := Files.Sort (f.Files ++ [r]) }

/-- The method `Folder.DeleteFolder`. -/
def Folder.DeleteFolder (f : Dfs.Folder) (name : Str)
    (deleteFolderHandler : Str → Option Err) : Outcome Str :=
  match rangeFind FolderShadow.Name name f.Folders with
  | some (i, _) =>
    match deleteFolderHandler (Join f.Full name) with
    | some err => ⟨f, some err, [Join f.Full name]⟩
    | none =>
      ⟨{ f with Folders := FolderShadows.Sort (f.Folders.take i ++ f.Folders.drop (i + 1)) },
        none, [Join f.Full name]⟩
  | none => ⟨f, some Err.ErrNotExist, []⟩

/-- The method `Folder.DeleteFile`; the handler receives the stored record. -/
def Folder.DeleteFile (f : Dfs.Folder) (name : Str)
    (deleteFileHandler : Dfs.File → Option Err) : Outcome Dfs.File :=
  match rangeFind Dfs.File.Name name f.Files with
  | some (i, sf) =>
    match deleteFileHandler sf with
    | some err => ⟨f, some err, [sf]⟩
    | none =>
      ⟨{ f with Files := Files.Sort (f.Files.take i ++ f.Files.drop (i + 1)) }, none, [sf]⟩
  | none => ⟨f, some Err.ErrNotExist, []⟩

/-! ## Sequences of mutations -/

/-- One call of a create or delete method, with its arguments. -/
inductive Op where
  | newFolder (name : Str) (handler : FolderShadow → Option Err)
  | newFile (name : Str) (now : Time)
  | deleteFolder (name : Str) (handler : Str → Option Err)
  | deleteFile (name : Str) (handler : Dfs.File → Option Err)

/-- The folder after one call. -/
def Op.apply (f : Dfs.Folder) : Op → Dfs.Folder
  | Op.newFolder name h => (f.NewFolder name h).folder
  | Op.newFile name now => (f.NewFile name now).folder
  | Op.deleteFolder name h => (f.DeleteFolder name h).folder
  | Op.deleteFile name h => (f.DeleteFile name h).folder

/-- The folder after a sequence of calls, made one after the other. -/
def runOps (f : Dfs.Folder) (ops : List Op) : Dfs.Folder :=
  ops.foldl Op.apply f

/-! ## Predicates of the specification -/

/-- A valid single-segment name: non-empty, without separator. -/
def ValidName (name : Str) : Prop :=
  name ≠ [] ∧ pathSeparator ∉ name

instance ValidName.decidable (name : Str) : Decidable (ValidName name) := by
  unfold ValidName
  infer_instance

/-- The name as the create methods see it: `CorrectPath(name)[1:]`. -/
def normName (name : Str) : Str :=
  (CorrectPath name).drop 1

/-- The names of a folder's child shadows, in order. -/
def folderNames (f : Dfs.Folder) : List Str :=
  f.Folders.map FolderShadow.Name

/-- The names of a folder's files, in order. -/
def fileNames (f : Dfs.Folder) : List Str :=
  f.Files.map Dfs.File.Name

/-- The names of all direct children, folder shadows first. -/
def childNames (f : Dfs.Folder) : List Str :=
  folderNames f ++ fileNames f

/-- The invariant of the create and delete methods: both child collections are
strictly increasing by name. -/
def StrictlySorted (f : Folder) : Prop :=
  (fileNames f).Sorted (· < ·) ∧ (folderNames f).Sorted (· < ·)

/-- The order `sort.Sort` establishes for a slice whose `Less` compares a name. -/
abbrev nameLE {α : Type} (key : α → Str) : α → α → Prop := fun a b => key a ≤ key b

instance nameLE_total {α : Type} (key : α → Str) : IsTotal α (nameLE key) :=
  ⟨fun a b => le_total (key a) (key b)⟩

instance nameLE_trans {α : Type} (key : α → Str) : IsTrans α (nameLE key) :=
  ⟨fun _ _ _ h1 h2 => le_trans h1 h2⟩

/-! ## Folders for the worked examples -/

/-- The folder `/x` with the child folder `a` and the file `b`. -/
def sampleFolder : Folder :=
  { Full := "/x".data, Name := "x".data, Created := 1, Modified := 1,
    Folders := [{ Full := "/x/a".data, Name := "a".data }],
    Files := [newFile "b".data 1] }

/-- The empty folder `/x` after `ReplaceFile` has put a record named `a/b`
into it. -/
def slashFolder : Folder :=
  (NewFolder "/x".data 1 1).ReplaceFile "a/b".data (some (newFile "a/b".data 1))

/-- A handler that always fails. -/
def failing {α : Type} : α → Option Err := fun _ => some (Err.other "down".data)

/-- A handler that always succeeds. -/
def succeeding {α : Type} : α → Option Err := fun _ => none

/-! ## The queries `Size` and `Locked` -/

/-- The method `Folder.Size`. The accumulator `s` is a `uint64`: every `+=`
wraps at `2^64`. -/
def Folder.Size (f : Dfs.Folder) (sizeHandler : FolderShadows → Nat) : Nat :=
  let s := f.Files.foldl (fun s file => (s + file.Size) % 2 ^ 64) 0
  if f.Folders.length > 0 then (s + sizeHandler f.Folders) % 2 ^ 64
  else s

/-- The method `Folder.Locked`: the loop returns `true` at the first locked
file. -/
def Folder.Locked (f : Dfs.Folder) : Bool :=
  f.Files.any (fun file => file.Locked)

/-! ## `CloneInto`, with the folders and the file records in memory

`CloneInto` is about pointers: the receiver and the target are `*Folder`,
`Files` is a `[]*File`, and the method stores the addresses of fresh copies.
Here the folder objects and the file records lie in memory cells and a pointer
is the address of one, so that the receiver and the target may be one and the
same object. -/

/-- The address of a memory cell: a non-nil pointer. -/
abbrev Addr := Nat

/-- The cells holding `File` records; the cell of address `a` is the entry at
position `a`. -/
abbrev FileHeap := List Dfs.File

/-- A `Folder` as it lies in memory: its `Files` slice holds pointers. -/
structure FolderRef where
  Full : Str
  Name : Str
  Created : Time
  Modified : Time
  Folders : FolderShadows
  Files : List Addr
deriving DecidableEq

/-- The memory: the folder objects and the file records, each in the cell of
its address. -/
structure Memory where
  folders : List FolderRef
  files : FileHeap
deriving DecidableEq

/-- The built-in `copy(dst, src)`: it overwrites the first
`min(len(dst), len(src))` elements of `dst` and leaves its length alone. -/
def copySlice {α : Type} (dst src : List α) : List α :=
  src.take dst.length ++ dst.drop src.length

/-- The loop `for _, f := range f.Files { shadow := *f; target.Files =
append(target.Files, &shadow) }` over the pointers the range expression gave:
each round reads the cell a source pointer names, puts the copy into a fresh
cell and appends its address to the `Files` of the target object. Reading
through a pointer that names no cell panics: `none`. -/
def cloneLoop (target : Addr) : List Addr → Memory → Option Memory
  | [], mem => some mem
  | p :: ps, mem =>
    match mem.files[p]? with
    | none => none
    | some shadow =>
      match mem.folders[target]? with
      | none => none
      | some t =>
        cloneLoop target ps
          { folders := mem.folders.set target { t with Files := t.Files ++ [mem.files.length] },
            files := mem.files ++ [shadow] }

/-- The method `Folder.CloneInto`, for the addresses of the receiver and of
the target: the memory after the call; `none` is a panic, and with a `nil`
target nothing happens. The range expression `f.Files` is read once, after
`target.Files = make(Files, 0)`. -/
def Folder.CloneInto (mem : Memory) (f : Addr) (target : Option Addr) : Option Memory :=
  match target with
  | none => some mem
  | some target =>
    match mem.folders[f]?, mem.folders[target]? with
    | some src, some t =>
      let folders1 := mem.folders.set target
        { t with Folders := copySlice t.Folders src.Folders, Files := [] }
      match folders1[f]? with
      | none => none
      | some src1 => cloneLoop target src1.Files { folders := folders1, files := mem.files }
    | _, _ => none

/-! ## The read container of `head-node/manager/dfs_read_container.go` -/

/-- The Go type `ReadType`, an `int`. -/
abbrev ReadType := Int

/-- The constant `RT_Folder`. -/
def RT_Folder : ReadType := 1

/-- The constant `RT_File`. -/
def RT_File : ReadType := 2

/-- An `io.Writer`, as the bytes written to it so far. -/
abbrev Writer := List Nat

/-- A stream function `func(w io.Writer, begins int64, ends int64) error`: the
writer after the call and the error returned. -/
abbrev StreamHandler := Writer → Int → Int → Writer × Option Err

/-- The struct `readContainer`; a `nil` pointer or function value is `none`. -/
structure readContainer where
  folder : Option Folder
  file : Option File
  streamHandler : Option StreamHandler

/-- The constructor `newReadContainerForFolder`; the fields it does not name
keep their zero value `nil`. -/
def newReadContainerForFolder (folder : Option Folder) : readContainer :=
  { folder := folder, file := none, streamHandler := none }

/-- The constructor `newReadContainerForFile`. -/
def newReadContainerForFile (file : Option File) (streamHandler : Option StreamHandler) :
    readContainer :=
  { folder := none, file := file, streamHandler := streamHandler }

/-- The method `readContainer.Type`. -/
def readContainer.Type (r : readContainer) : ReadType :=
  if r.file.isSome then RT_File else RT_Folder

/-- The method `readContainer.Folder`. -/
def readContainer.Folder (r : readContainer) : Option Dfs.Folder :=
  r.folder

/-- The method `readContainer.File`. -/
def readContainer.File (r : readContainer) : Option Dfs.File :=
  r.file

/-- How a call of `Read` ends: with a run-time panic, or by returning an error
value, the writer being left as the stream function left it. `calls` records
the arguments the stream function was invoked with. -/
inductive ReadOutcome where
  | panicked
  | returned (w : Writer) (err : Option Err) (calls : List (Writer × Int × Int))

/-- The method `readContainer.Read`: it calls `r.streamHandler`; the call of a
`nil` function value panics. -/
def readContainer.Read (r : readContainer) (w : Writer) (begins ends : Int) : ReadOutcome :=
  match r.streamHandler with
  | none => ReadOutcome.panicked
  | some streamHandler =>
    ReadOutcome.returned (streamHandler w begins ends).1 (streamHandler w begins ends).2
      [(w, begins, ends)]

/-! ## The wire error of `data-node/src/common/error.go` -/

/-- The struct `Error`. -/
structure Error where
  Code : Int
  Message : Str
deriving DecidableEq

/-- What `json.NewDecoder(reader).Decode(&e)` does with the contents of a
reader: it fills `e`, or fails with an error of some message. The decoder is
the Go standard library's. -/
abbrev JsonDecoder := Str → Except Str Error

/-- The function `NewError`, for a JSON decoder and the contents of `reader`. -/
def NewError (decode : JsonDecoder) (reader : Str) : Error :=
  match decode reader with
  | Except.error err => { Code := 999, Message := err }
  | Except.ok e => e

/-! ## A decoder for the wire form

The wire form of an `Error` is a "JSON object with integer `code` and string
`message` fields". `decodeFlat` reads such objects: one level, members whose
values are integers or strings without escapes; it is the decoder of the worked
examples and stands for `encoding/json` on these payloads only. Everything else
it reports as a failure. -/

/-- The tokens of a flat JSON object. -/
inductive Token where
  | lbrace
  | rbrace
  | colon
  | comma
  | str (s : Str)
  | num (n : Int)
deriving DecidableEq

/-- The characters of a string up to its closing quote (code 34), and what
follows it; a backslash (code 92) or a missing quote is a failure. -/
def readString : Str → Option (Str × Str)
  | [] => none
  | c :: cs =>
    if c.toNat = 34 then some ([], cs)
    else if c.toNat = 92 then none
    else (readString cs).map (fun p => (c :: p.1, p.2))

/-- The value of a run of decimal digits, and what follows it. -/
def readDigits : Nat → Str → Nat × Str
  | n, [] => (n, [])
  | n, c :: cs => if c.isDigit then readDigits (n * 10 + (c.toNat - 48)) cs else (n, c :: cs)

/-- The tokens of a text; white space (codes 32, 9, 10, 13) separates them. -/
def tokens : Nat → Str → Option (List Token)
  | _, [] => some []
  | 0, _ :: _ => none
  | fuel + 1, c :: cs =>
    if c.toNat = 32 ∨ c.toNat = 9 ∨ c.toNat = 10 ∨ c.toNat = 13 then tokens fuel cs
    else if c = '{' then (tokens fuel cs).map (fun ts => Token.lbrace :: ts)
    else if c = '}' then (tokens fuel cs).map (fun ts => Token.rbrace :: ts)
    else if c = ':' then (tokens fuel cs).map (fun ts => Token.colon :: ts)
    else if c = ',' then (tokens fuel cs).map (fun ts => Token.comma :: ts)
    else if c.toNat = 34 then
      match readString cs with
      | none => none
      | some (s, rest) => (tokens fuel rest).map (fun ts => Token.str s :: ts)
    else if c = '-' then
      (tokens fuel (readDigits 0 cs).2).map
        (fun ts => Token.num (-((readDigits 0 cs).1 : Int)) :: ts)
    else if c.isDigit then
      (tokens fuel (readDigits 0 (c :: cs)).2).map
        (fun ts => Token.num ((readDigits 0 (c :: cs)).1 : Int) :: ts)
    else none

/-- One member stored into the envelope: `code` takes an integer, `message` a
string, other keys are ignored. -/
def setField (e : Error) (key : Str) (value : Token) : Except Str Error :=
  if key = "code".data then
    match value with
    | Token.num n => Except.ok { e with Code := n }
    | _ => Except.error "json: cannot unmarshal into Go struct field Error.code of type int".data
  else if key = "message".data then
    match value with
    | Token.str s => Except.ok { e with Message := s }
    | _ =>
      Except.error "json: cannot unmarshal into Go struct field Error.message of type string".data
  else
    match value with
    | Token.str _ => Except.ok e
    | Token.num _ => Except.ok e
    | _ => Except.error "invalid character looking for beginning of value".data

/-- The members of an object, after its opening brace. -/
def members (e : Error) : List Token → Except Str Error
  | Token.str key :: Token.colon :: value :: Token.comma :: rest =>
    match setField e key value with
    | Except.ok e2 => members e2 rest
    | Except.error err => Except.error err
  | Token.str key :: Token.colon :: value :: Token.rbrace :: _ => setField e key value
  | _ => Except.error "unexpected end of JSON input".data

/-- The decoder of flat objects. -/
def decodeFlat : JsonDecoder := fun reader =>
  match tokens reader.length reader with
  | some (Token.lbrace :: Token.rbrace :: _) => Except.ok { Code := 0, Message := [] }
  | some (Token.lbrace :: ts) => members { Code := 0, Message := [] } ts
  | some [] => Except.error "EOF".data
  | _ => Except.error "invalid character looking for beginning of value".data

/-- The payload of the worked example. -/
def notFoundPayload : Str :=
  [Char.ofNat 123, Char.ofNat 34] ++ "code".data ++ [Char.ofNat 34] ++ ":404,".data ++
    [Char.ofNat 34] ++ "message".data ++ [Char.ofNat 34, Char.ofNat 58, Char.ofNat 34] ++
    "not found".data ++ [Char.ofNat 34, Char.ofNat 125]

/-- The folder `/x` with files of sizes 10 and 20 and no child folder. -/
def twoFiles : Folder :=
  { Full := "/x".data, Name := "x".data, Created := 1, Modified := 1, Folders := [],
    Files := [{ newFile "a".data 1 with Size := 10 }, { newFile "b".data 1 with Size := 20 }] }

/-- The folder `twoFiles` with one child folder `d`. -/
def twoFilesOneFolder : Folder :=
  { twoFiles with Folders := [{ Full := "/x/d".data, Name := "d".data }] }

/-- A source folder in memory: one child folder `a`, and one file, in cell 0. -/
def cloneSource : FolderRef :=
  { Full := "/x".data, Name := "x".data, Created := 1, Modified := 1,
    Folders := [{ Full := "/x/a".data, Name := "a".data }], Files := [0] }

/-- A freshly constructed target, as `NewFolder("/t")` builds it: its slices
are empty. -/
def cloneTarget : FolderRef :=
  { Full := "/t".data, Name := "t".data, Created := 2, Modified := 2, Folders := [],
    Files := [] }

/-- The heap of the example: cell 0 holds the file `b`. -/
def cloneHeap : FileHeap := [newFile "b".data 1]

/-- The memory of the example: the source at address 0, the target at address
1, and the one file record. -/
def cloneMemory : Memory :=
  { folders := [cloneSource, cloneTarget], files := cloneHeap }

/-- A memory with the source folder alone, at address 0. -/
def selfMemory : Memory :=
  { folders := [cloneSource], files := cloneHeap }

/-- A folder with the child folder `a` whose files `z` and `b` are not in the
order of their names. -/
def unsortedFolder : Folder :=
  { Full := "/x".data, Name := "x".data, Created := 1, Modified := 1,
    Folders := [{ Full := "/x/a".data, Name := "a".data }],
    Files := [newFile "z".data 1, newFile "b".data 1] }

/-- A stream function that writes the two bounds and reports the error
`busy`. -/
def echoStream : StreamHandler :=
  fun w begins ends => (w ++ [begins.toNat, ends.toNat], some (Err.other "busy".data))

/-! ## Lemmas on the path utilities -/

theorem splitOnP_append_sep {α : Type} (p : α → Bool) (c : α) (hc : p c = true) (a b : List α) :
    (a ++ c :: b).splitOnP p = a.splitOnP p ++ b.splitOnP p := by
  induction a with
  | nil => simp [hc]
  | cons x a ih =>
    rw [List.cons_append, List.splitOnP_cons, List.splitOnP_cons, ih]
    by_cases hx : p x = true
    · simp [hx]
    · simp only [hx, Bool.false_eq_true, if_false]
      cases h : a.splitOnP p with
      | nil => exact absurd h (List.splitOnP_ne_nil p a)
      | cons hd tl => rfl

theorem splitOnP_sep_free {α : Type} (p : α → Bool) (s : List α) :
    ∀ l ∈ s.splitOnP p, ∀ x ∈ l, p x = false := by
  induction s with
  | nil => simp
  | cons x s ih =>
    rw [List.splitOnP_cons]
    by_cases hx : p x = true
    · simp only [hx, if_true]
      intro l hl
      rcases List.mem_cons.1 hl with h | h
      · subst h; simp
      · exact ih l h
    · simp only [hx, Bool.false_eq_true, if_false]
      cases h : s.splitOnP p with
      | nil => simp
      | cons hd tl =>
        rw [h] at ih
        intro l hl
        simp only [List.modifyHead_cons, List.mem_cons] at hl
        rcases hl with h1 | h1
        · subst h1
          intro y hy
          rcases List.mem_cons.1 hy with h2 | h2
          · subst h2; simpa using hx
          · exact ih hd (List.mem_cons_self _ _) y h2
        · exact ih l (List.mem_cons_of_mem _ h1)

theorem segments_spec (p : Str) : ∀ s ∈ segments p, s ≠ [] ∧ pathSeparator ∉ s := by
  intro s hs
  simp only [segments, List.mem_filter] at hs
  refine ⟨by intro h; simp [h] at hs, fun hmem => ?_⟩
  have := splitOnP_sep_free (· == pathSeparator) p s hs.1 pathSeparator hmem
  simp at this

theorem segments_append_sep (a b : Str) :
    segments (a ++ pathSeparator :: b) = segments a ++ segments b := by
  simp only [segments, List.splitOn]
  rw [splitOnP_append_sep _ _ (by simp), List.filter_append]

theorem segments_valid {n : Str} (h : ValidName n) : segments n = [n] := by
  obtain ⟨hne, hsep⟩ := h
  simp only [segments, List.splitOn]
  rw [List.splitOnP_eq_single]
  · cases n with
    | nil => exact absurd rfl hne
    | cons c cs => simp
  · intro x hx hp
    simp only [beq_iff_eq] at hp
    exact hsep (hp ▸ hx)

theorem segments_render {segs : List Str} (h : ∀ s ∈ segs, s ≠ [] ∧ pathSeparator ∉ s) :
    segments (render segs) = segs := by
  cases hs : segs with
  | nil => decide
  | cons s rest =>
    rw [← hs]
    have hne : segs ≠ [] := by simp [hs]
    have h1 : (render segs).splitOn pathSeparator = [] :: segs := by
      have := List.splitOn_intercalate segs pathSeparator (fun l hl => (h l hl).2) hne
      simp only [render, List.splitOn] at this ⊢
      rw [List.splitOnP_cons]
      simp [this]
    simp only [segments, h1]
    rw [List.filter_cons]
    simp only [List.isEmpty_nil, Bool.not_true, Bool.false_eq_true, if_false]
    rw [List.filter_eq_self]
    intro a ha
    have := (h a ha).1
    cases a with
    | nil => exact absurd rfl this
    | cons _ _ => simp

theorem correctPath_correctPath (p : Str) : CorrectPath (CorrectPath p) = CorrectPath p := by
  simp only [CorrectPath]
  rw [segments_render (segments_spec p)]

theorem normName_valid {n : Str} (h : ValidName n) : normName n = n := by
  simp [normName, CorrectPath, segments_valid h, render, List.intercalate]

theorem join_segments (parent : Str) {n : Str} (h : ValidName n) :
    segments (Join parent n) = segments parent ++ [n] := by
  simp only [Join, CorrectPath]
  rw [segments_render (segments_spec _), segments_append_sep, segments_valid h]

theorem newFolderShadow_join (parent : Str) {n : Str} (h : ValidName n) :
    NewFolderShadow (Join parent n) = { Full := Join parent n, Name := n } := by
  have h1 : CorrectPath (Join parent n) = Join parent n := correctPath_correctPath _
  simp only [NewFolderShadow, h1, Split, join_segments parent h]
  simp

/-! ## Lemmas on the range loop -/

theorem rangeFind_eq_none {α : Type} (key : α → Str) (name : Str) (l : List α) :
    rangeFind key name l = none ↔ ∀ x ∈ l, key x ≠ name := by
  induction l with
  | nil => simp [rangeFind]
  | cons x xs ih =>
    by_cases hx : key x = name
    · simp [rangeFind, hx]
    · simp [rangeFind, hx, ih]

theorem rangeFind_eq_some {α : Type} (key : α → Str) (name : Str) (l : List α) (i : Nat) (x : α)
    (h : rangeFind key name l = some (i, x)) :
    key x = name ∧ l = l.take i ++ x :: l.drop (i + 1) ∧ (l.take i).length = i ∧
      ∀ y ∈ l.take i, key y ≠ name := by
  induction l generalizing i with
  | nil => simp [rangeFind] at h
  | cons a as ih =>
    by_cases ha : key a = name
    · simp only [rangeFind, ha, if_true, Option.some.injEq, Prod.mk.injEq] at h
      obtain ⟨rfl, rfl⟩ := h
      simp [ha]
    · simp only [rangeFind, ha, if_false, Option.map_eq_some', Prod.mk.injEq] at h
      obtain ⟨⟨j, y⟩, hj, rfl, rfl⟩ := h
      obtain ⟨h1, h2, h3, h4⟩ := ih j hj
      refine ⟨h1, ?_, ?_, ?_⟩
      · simp only [List.take_succ_cons, List.drop_succ_cons, List.cons_append]
        rw [← h2]
      · simp [h3]
      · intro z hz
        simp only [List.take_succ_cons, List.mem_cons] at hz
        rcases hz with rfl | hz
        · exact ha
        · exact h4 z hz

theorem rangeFind_isSome {α : Type} (key : α → Str) (name : Str) (l : List α) :
    (rangeFind key name l).isSome = true ↔ name ∈ l.map key := by
  rw [← not_iff_not]
  simp only [Bool.not_eq_true, Option.not_isSome, Option.isNone_iff_eq_none,
    rangeFind_eq_none, List.mem_map, not_exists, not_and]

/-- The entry a range loop stops at, when exactly one entry has the name. -/
theorem rangeFind_unique {α : Type} (key : α → Str) (name : Str) (l : List α) (x : α)
    (hx : x ∈ l) (hk : key x = name) (hu : ∀ y ∈ l, key y = name → y = x) :
    ∃ i, rangeFind key name l = some (i, x) := by
  cases h : rangeFind key name l with
  | none => exact absurd hk ((rangeFind_eq_none key name l).1 h x hx)
  | some p =>
    obtain ⟨i, y⟩ := p
    obtain ⟨h1, h2, -, -⟩ := rangeFind_eq_some key name l i y h
    have hy : y ∈ l := by rw [h2]; simp
    exact ⟨i, by rw [hu y hy h1]⟩

/-! ## Lemmas on sorting by name -/

theorem sort_perm {α : Type} (key : α → Str) (l : List α) :
    (l.insertionSort (nameLE key)).Perm l :=
  List.perm_insertionSort _ l

theorem sort_sorted {α : Type} (key : α → Str) (l : List α) :
    ((l.insertionSort (nameLE key)).map key).Sorted (· ≤ ·) := by
  have h := List.sorted_insertionSort (nameLE key) l
  exact List.pairwise_map.2 h

theorem sort_eq_self {α : Type} (key : α → Str) (l : List α)
    (h : (l.map key).Sorted (· ≤ ·)) : l.insertionSort (nameLE key) = l :=
  List.Sorted.insertionSort_eq
    (show List.Pairwise (nameLE key) l from
      (List.pairwise_map (f := key) (R := (· ≤ ·)) (l := l)).1 h)

theorem sort_names_perm {α : Type} (key : α → Str) (l : List α) :
    ((l.insertionSort (nameLE key)).map key).Perm (l.map key) :=
  (sort_perm key l).map key

theorem sort_length {α : Type} (key : α → Str) (l : List α) :
    (l.insertionSort (nameLE key)).length = l.length :=
  (sort_perm key l).length_eq

/-- Removing the entry at an index keeps a list sorted by name. -/
theorem sorted_remove {α : Type} (key : α → Str) (l : List α) (i : Nat)
    (h : (l.map key).Sorted (· ≤ ·)) :
    ((l.take i ++ l.drop (i + 1)).map key).Sorted (· ≤ ·) := by
  have hs : (l.take i ++ l.drop (i + 1)).Sublist l := by
    rw [← List.eraseIdx_eq_take_drop_succ]
    exact List.eraseIdx_sublist l i
  exact List.Pairwise.sublist (hs.map key) h

theorem nodup_remove {α : Type} (key : α → Str) (l : List α) (i : Nat)
    (h : (l.map key).Nodup) : ((l.take i ++ l.drop (i + 1)).map key).Nodup := by
  have hs : (l.take i ++ l.drop (i + 1)).Sublist l := by
    rw [← List.eraseIdx_eq_take_drop_succ]
    exact List.eraseIdx_sublist l i
  exact List.Nodup.sublist (hs.map key) h

theorem files_sort_eq (l : Files) : Files.Sort l = l.insertionSort (nameLE File.Name) := rfl

theorem shadows_sort_eq (l : FolderShadows) :
    FolderShadows.Sort l = l.insertionSort (nameLE FolderShadow.Name) := rfl

/-! ## Lemmas on the lookups -/

theorem folder_isSome (f : Folder) (name : Str) :
    (f.Folder name).isSome = true ↔ name ∈ folderNames f := by
  rw [folderNames, ← rangeFind_isSome]
  unfold Folder.Folder
  cases rangeFind FolderShadow.Name name f.Folders <;> simp

theorem file_isSome (f : Folder) (name : Str) :
    (f.File name).isSome = true ↔ name ∈ fileNames f := by
  rw [fileNames, ← rangeFind_isSome]
  unfold Folder.File
  cases rangeFind File.Name name f.Files <;> simp

theorem exists_iff (f : Folder) (name : Str) :
    f.exists name = true ↔ name ∈ childNames f := by
  have h1 := folder_isSome f name
  have h2 := file_isSome f name
  simp only [Folder.exists, childNames, List.mem_append]
  by_cases hf : (f.File name).isSome = true
  · simp [hf, h2.1 hf]
  · by_cases hd : (f.Folder name).isSome = true
    · simp [hf, hd, h1.1 hd]
    · have h3 : name ∉ fileNames f := fun h => hf (h2.2 h)
      have h4 : name ∉ folderNames f := fun h => hd (h1.2 h)
      simp [hf, hd, h3, h4]

theorem folder_eq_none (f : Folder) (name : Str) :
    f.Folder name = none ↔ name ∉ folderNames f := by
  rw [← folder_isSome]
  cases f.Folder name <;> simp

theorem file_eq_none (f : Folder) (name : Str) :
    f.File name = none ↔ name ∉ fileNames f := by
  rw [← file_isSome]
  cases f.File name <;> simp

/-- The create methods after their local checks have passed. -/
theorem newFolder_checked (f : Folder) (name : Str) (h : FolderShadow → Option Err)
    (hv : ValidName (normName name)) (hu : normName name ∉ childNames f) :
    f.NewFolder name h =
      match h (NewFolderShadow (Join f.Full (normName name))) with
      | some err => ⟨f, some err, [NewFolderShadow (Join f.Full (normName name))]⟩
      | none =>
        ⟨{ f with Folders :=
            FolderShadows.Sort (f.Folders ++ [NewFolderShadow (Join f.Full (normName name))]) },
          none, [NewFolderShadow (Join f.Full (normName name))]⟩ := by
  obtain ⟨hne, hsep⟩ := hv
  have h1 : ¬ (normName name).length = 0 := by
    intro h0; exact hne (List.length_eq_zero.1 h0)
  have h2 : ¬ (f.exists (normName name) = true) := fun h0 => hu ((exists_iff f _).1 h0)
  unfold Folder.NewFolder
  simp only [normName] at h1 hsep h2 ⊢
  simp only [h1, hsep, h2, if_false, Bool.false_eq_true]

theorem newFile_checked (f : Folder) (name : Str) (now : Time)
    (hv : ValidName (normName name)) (hu : normName name ∉ childNames f) :
    f.NewFile name now =
      ⟨{ f with Files := Files.Sort (f.Files ++ [newFile (normName name) now]) },
        some (newFile (normName name) now), none⟩ := by
  obtain ⟨hne, hsep⟩ := hv
  have h1 : ¬ (normName name).length = 0 := by
    intro h0; exact hne (List.length_eq_zero.1 h0)
  have h2 : ¬ (f.exists (normName name) = true) := fun h0 => hu ((exists_iff f _).1 h0)
  unfold Folder.NewFile
  simp only [normName] at h1 hsep h2 ⊢
  simp only [h1, hsep, h2, if_false, Bool.false_eq_true]

theorem not_validName_iff (n : Str) : ¬ ValidName n ↔ n.length = 0 ∨ pathSeparator ∈ n := by
  unfold ValidName
  rw [List.length_eq_zero]
  tauto

theorem newFolder_invalid (f : Folder) (name : Str) (h : FolderShadow → Option Err)
    (hv : ¬ ValidName (normName name)) :
    f.NewFolder name h = ⟨f, some Err.ErrInvalid, []⟩ := by
  rw [not_validName_iff] at hv
  unfold Folder.NewFolder
  simp only [normName] at hv ⊢
  by_cases h1 : (List.drop 1 (CorrectPath name)).length = 0
  · rw [if_pos h1]
  · rw [if_neg h1, if_pos (hv.resolve_left h1)]

theorem newFolder_used (f : Folder) (name : Str) (h : FolderShadow → Option Err)
    (hv : ValidName (normName name)) (hu : normName name ∈ childNames f) :
    f.NewFolder name h = ⟨f, some Err.ErrExist, []⟩ := by
  obtain ⟨hne, hsep⟩ := hv
  have h1 : ¬ (normName name).length = 0 := by
    intro h0; exact hne (List.length_eq_zero.1 h0)
  have h2 : f.exists (normName name) = true := (exists_iff f _).2 hu
  unfold Folder.NewFolder
  simp only [normName] at h1 hsep h2 ⊢
  rw [if_neg h1, if_neg hsep, if_pos h2]

theorem newFile_invalid (f : Folder) (name : Str) (now : Time)
    (hv : ¬ ValidName (normName name)) :
    f.NewFile name now = ⟨f, none, some Err.ErrInvalid⟩ := by
  rw [not_validName_iff] at hv
  unfold Folder.NewFile
  simp only [normName] at hv ⊢
  by_cases h1 : (List.drop 1 (CorrectPath name)).length = 0
  · rw [if_pos h1]
  · rw [if_neg h1, if_pos (hv.resolve_left h1)]

theorem newFile_used (f : Folder) (name : Str) (now : Time)
    (hv : ValidName (normName name)) (hu : normName name ∈ childNames f) :
    f.NewFile name now = ⟨f, none, some Err.ErrExist⟩ := by
  obtain ⟨hne, hsep⟩ := hv
  have h1 : ¬ (normName name).length = 0 := by
    intro h0; exact hne (List.length_eq_zero.1 h0)
  have h2 : f.exists (normName name) = true := (exists_iff f _).2 hu
  unfold Folder.NewFile
  simp only [normName] at h1 hsep h2 ⊢
  rw [if_neg h1, if_neg hsep, if_pos h2]

/-- The shadow `NewFolder` builds once the local checks have passed. -/
theorem newFolderShadow_norm (f : Folder) (name : Str) (hv : ValidName (normName name)) :
    NewFolderShadow (Join f.Full (normName name)) =
      { Full := Join f.Full (normName name), Name := normName name } :=
  newFolderShadow_join f.Full hv

theorem deleteFolder_absent (f : Folder) (name : Str) (h : Str → Option Err)
    (hn : name ∉ folderNames f) : f.DeleteFolder name h = ⟨f, some Err.ErrNotExist, []⟩ := by
  have hr : rangeFind FolderShadow.Name name f.Folders = none := by
    rw [rangeFind_eq_none]
    intro x hx hk
    exact hn (List.mem_map.2 ⟨x, hx, hk⟩)
  unfold Folder.DeleteFolder
  rw [hr]

theorem deleteFile_absent (f : Folder) (name : Str) (h : File → Option Err)
    (hn : name ∉ fileNames f) : f.DeleteFile name h = ⟨f, some Err.ErrNotExist, []⟩ := by
  have hr : rangeFind File.Name name f.Files = none := by
    rw [rangeFind_eq_none]
    intro x hx hk
    exact hn (List.mem_map.2 ⟨x, hx, hk⟩)
  unfold Folder.DeleteFile
  rw [hr]

theorem deleteFolder_found (f : Folder) (name : Str) (h : Str → Option Err) (i : Nat)
    (s : FolderShadow) (hr : rangeFind FolderShadow.Name name f.Folders = some (i, s)) :
    f.DeleteFolder name h =
      match h (Join f.Full name) with
      | some err => ⟨f, some err, [Join f.Full name]⟩
      | none =>
        ⟨{ f with Folders := FolderShadows.Sort (f.Folders.take i ++ f.Folders.drop (i + 1)) },
          none, [Join f.Full name]⟩ := by
  unfold Folder.DeleteFolder
  rw [hr]

theorem deleteFile_found (f : Folder) (name : Str) (h : File → Option Err) (i : Nat)
    (sf : File) (hr : rangeFind File.Name name f.Files = some (i, sf)) :
    f.DeleteFile name h =
      match h sf with
      | some err => ⟨f, some err, [sf]⟩
      | none =>
        ⟨{ f with Files := Files.Sort (f.Files.take i ++ f.Files.drop (i + 1)) }, none, [sf]⟩ := by
  unfold Folder.DeleteFile
  rw [hr]

/-! ## Failing handlers and failing local checks -/

/-- C1. Storage-first atomicity: when the commit handler of `NewFolder`,
`DeleteFolder` or `DeleteFile` is reached and returns an error `e`, the method
returns exactly `e` and the folder, with its `Folders` and `Files`, is what it
was before the call. -/
theorem storage_first_atomicity (f : Folder) (name : Str) (e : Err) :
    (∀ (h : FolderShadow → Option Err), ∀ x ∈ (f.NewFolder name h).calls, h x = some e →
        (f.NewFolder name h).err = some e ∧ (f.NewFolder name h).folder = f) ∧
    (∀ (h : Str → Option Err), ∀ x ∈ (f.DeleteFolder name h).calls, h x = some e →
        (f.DeleteFolder name h).err = some e ∧ (f.DeleteFolder name h).folder = f) ∧
    (∀ (h : File → Option Err), ∀ x ∈ (f.DeleteFile name h).calls, h x = some e →
        (f.DeleteFile name h).err = some e ∧ (f.DeleteFile name h).folder = f) := by
  refine ⟨?_, ?_, ?_⟩
  · intro h x hx he
    by_cases hv : ValidName (normName name)
    · by_cases hu : normName name ∈ childNames f
      · rw [newFolder_used f name h hv hu] at hx
        simp at hx
      · rw [newFolder_checked f name h hv hu] at hx ⊢
        cases hh : h (NewFolderShadow (Join f.Full (normName name))) with
        | none =>
          rw [hh] at hx
          simp only [List.mem_singleton] at hx
          rw [hx, hh] at he
          exact absurd he (by simp)
        | some err =>
          rw [hh] at hx
          simp only [List.mem_singleton] at hx
          rw [hx, hh] at he
          simp only [Option.some.injEq] at he
          simp [he]
    · rw [newFolder_invalid f name h hv] at hx
      simp at hx
  · intro h x hx he
    cases hr : rangeFind FolderShadow.Name name f.Folders with
    | none =>
      rw [deleteFolder_absent f name h
        (fun hm => by rw [folderNames, ← rangeFind_isSome, hr] at hm; simp at hm)] at hx
      simp at hx
    | some p =>
      obtain ⟨i, s⟩ := p
      rw [deleteFolder_found f name h i s hr] at hx ⊢
      cases hh : h (Join f.Full name) with
      | none =>
        rw [hh] at hx
        simp only [List.mem_singleton] at hx
        rw [hx, hh] at he
        exact absurd he (by simp)
      | some err =>
        rw [hh] at hx
        simp only [List.mem_singleton] at hx
        rw [hx, hh] at he
        simp only [Option.some.injEq] at he
        simp [he]
  · intro h x hx he
    cases hr : rangeFind File.Name name f.Files with
    | none =>
      rw [deleteFile_absent f name h
        (fun hm => by rw [fileNames, ← rangeFind_isSome, hr] at hm; simp at hm)] at hx
      simp at hx
    | some p =>
      obtain ⟨i, sf⟩ := p
      rw [deleteFile_found f name h i sf hr] at hx ⊢
      cases hh : h sf with
      | none =>
        rw [hh] at hx
        simp only [List.mem_singleton] at hx
        rw [hx, hh] at he
        exact absurd he (by simp)
      | some err =>
        rw [hh] at hx
        simp only [List.mem_singleton] at hx
        rw [hx, hh] at he
        simp only [Option.some.injEq] at he
        simp [he]


theorem storage_first_atomicity_witness :
    ((sampleFolder.NewFolder "c".data failing).err = some (Err.other "down".data) ∧
      (sampleFolder.NewFolder "c".data failing).folder = sampleFolder) ∧
    ((sampleFolder.DeleteFolder "a".data failing).err = some (Err.other "down".data) ∧
      (sampleFolder.DeleteFolder "a".data failing).folder = sampleFolder) ∧
    ((sampleFolder.DeleteFile "b".data failing).err = some (Err.other "down".data) ∧
      (sampleFolder.DeleteFile "b".data failing).folder = sampleFolder) :=
  ⟨(storage_first_atomicity sampleFolder "c".data (Err.other "down".data)).1 failing
      { Full := "/x/c".data, Name := "c".data } (by decide) rfl,
    (storage_first_atomicity sampleFolder "a".data (Err.other "down".data)).2.1 failing
      "/x/a".data (by decide) rfl,
    (storage_first_atomicity sampleFolder "b".data (Err.other "down".data)).2.2 failing
      (newFile "b".data 1) (by decide) rfl⟩

/-- C9. Delete of an absent target: when no child folder (resp. no file) has
the name, `DeleteFolder` (resp. `DeleteFile`) returns `os.ErrNotExist` whatever
the handler is, does not invoke it, and leaves the folder as it was. -/
theorem delete_absent_target (f : Folder) (name : Str) :
    (name ∉ folderNames f → ∀ (h : Str → Option Err),
        (f.DeleteFolder name h).err = some Err.ErrNotExist ∧
        (f.DeleteFolder name h).folder = f ∧ (f.DeleteFolder name h).calls = []) ∧
    (name ∉ fileNames f → ∀ (h : File → Option Err),
        (f.DeleteFile name h).err = some Err.ErrNotExist ∧
        (f.DeleteFile name h).folder = f ∧ (f.DeleteFile name h).calls = []) := by
  refine ⟨fun hn h => ?_, fun hn h => ?_⟩
  · rw [deleteFolder_absent f name h hn]; exact ⟨rfl, rfl, rfl⟩
  · rw [deleteFile_absent f name h hn]; exact ⟨rfl, rfl, rfl⟩

theorem delete_absent_target_witness :
    ((sampleFolder.DeleteFolder "b".data succeeding).err = some Err.ErrNotExist ∧
      (sampleFolder.DeleteFolder "b".data succeeding).folder = sampleFolder ∧
      (sampleFolder.DeleteFolder "b".data succeeding).calls = []) ∧
    ((sampleFolder.DeleteFile "a".data succeeding).err = some Err.ErrNotExist ∧
      (sampleFolder.DeleteFile "a".data succeeding).folder = sampleFolder ∧
      (sampleFolder.DeleteFile "a".data succeeding).calls = []) :=
  ⟨(delete_absent_target sampleFolder "b".data).1 (by decide) succeeding,
    (delete_absent_target sampleFolder "a".data).2 (by decide) succeeding⟩

/-- C2, as the code has it. Cross-kind name collision: when the name the create
methods work with, `CorrectPath(name)[1:]`, is a valid single segment that a
direct child (file or folder shadow) already uses, `NewFolder` fails with
`os.ErrExist` for every handler, without invoking it, `NewFile` fails with
`os.ErrExist`, and the folder is what it was. -/
theorem name_collision (f : Folder) (name : Str) (hv : ValidName (normName name))
    (hu : normName name ∈ childNames f) :
    (∀ (h : FolderShadow → Option Err),
        (f.NewFolder name h).err = some Err.ErrExist ∧ (f.NewFolder name h).folder = f ∧
        (f.NewFolder name h).calls = []) ∧
    (∀ (now : Time),
        (f.NewFile name now).err = some Err.ErrExist ∧ (f.NewFile name now).file = none ∧
        (f.NewFile name now).folder = f) := by
  refine ⟨fun h => ?_, fun now => ?_⟩
  · rw [newFolder_used f name h hv hu]; exact ⟨rfl, rfl, rfl⟩
  · rw [newFile_used f name now hv hu]; exact ⟨rfl, rfl, rfl⟩

theorem name_collision_witness :
    ((∀ (h : FolderShadow → Option Err),
        (sampleFolder.NewFolder "b".data h).err = some Err.ErrExist ∧
        (sampleFolder.NewFolder "b".data h).folder = sampleFolder ∧
        (sampleFolder.NewFolder "b".data h).calls = []) ∧
      (∀ (now : Time),
        (sampleFolder.NewFile "b".data now).err = some Err.ErrExist ∧
        (sampleFolder.NewFile "b".data now).file = none ∧
        (sampleFolder.NewFile "b".data now).folder = sampleFolder)) ∧
    (∀ (now : Time), (sampleFolder.NewFile "a".data now).err = some Err.ErrExist) :=
  ⟨name_collision sampleFolder "b".data (by decide) (by decide),
    fun now => ((name_collision sampleFolder "a".data (by decide) (by decide)).2 now).1⟩

/-- C2 fails as stated: the name `a/b` is used by a file of the folder, and
both create methods answer `os.ErrInvalid`, not `os.ErrExist`. -/
theorem name_collision_counterexample :
    "a/b".data ∈ childNames slashFolder ∧
    (slashFolder.NewFile "a/b".data 2).err = some Err.ErrInvalid ∧
    (slashFolder.NewFolder "a/b".data succeeding).err = some Err.ErrInvalid := by
  decide

/-- C3, as the code has it. Invalid names are rejected: when the name the
create methods work with, `CorrectPath(name)[1:]`, is empty or contains the
separator, `NewFolder` (for every handler, without invoking it) and `NewFile`
fail with `os.ErrInvalid` and the folder is what it was. -/
theorem invalid_name_rejected (f : Folder) (name : Str)
    (hbad : normName name = [] ∨ pathSeparator ∈ normName name) :
    (∀ (h : FolderShadow → Option Err),
        (f.NewFolder name h).err = some Err.ErrInvalid ∧ (f.NewFolder name h).folder = f ∧
        (f.NewFolder name h).calls = []) ∧
    (∀ (now : Time),
        (f.NewFile name now).err = some Err.ErrInvalid ∧ (f.NewFile name now).file = none ∧
        (f.NewFile name now).folder = f) := by
  have hv : ¬ ValidName (normName name) := by
    rintro ⟨h1, h2⟩
    rcases hbad with h | h
    · exact h1 h
    · exact h2 h
  refine ⟨fun h => ?_, fun now => ?_⟩
  · rw [newFolder_invalid f name h hv]; exact ⟨rfl, rfl, rfl⟩
  · rw [newFile_invalid f name now hv]; exact ⟨rfl, rfl, rfl⟩

theorem invalid_name_rejected_witness :
    ((∀ (h : FolderShadow → Option Err),
        (sampleFolder.NewFolder "c/d".data h).err = some Err.ErrInvalid ∧
        (sampleFolder.NewFolder "c/d".data h).folder = sampleFolder ∧
        (sampleFolder.NewFolder "c/d".data h).calls = []) ∧
      (∀ (now : Time),
        (sampleFolder.NewFile "c/d".data now).err = some Err.ErrInvalid ∧
        (sampleFolder.NewFile "c/d".data now).file = none ∧
        (sampleFolder.NewFile "c/d".data now).folder = sampleFolder)) ∧
    (∀ (now : Time), (sampleFolder.NewFile [] now).err = some Err.ErrInvalid) :=
  ⟨invalid_name_rejected sampleFolder "c/d".data (by decide),
    fun now => ((invalid_name_rejected sampleFolder [] (by decide)).2 now).1⟩

/-- C3 fails as stated: the name `/c` contains the separator, and both create
methods accept it, creating the child `c`. -/
theorem invalid_name_counterexample :
    pathSeparator ∈ "/c".data ∧
    (sampleFolder.NewFile "/c".data 2).err = none ∧
    fileNames (sampleFolder.NewFile "/c".data 2).folder = ["b".data, "c".data] ∧
    (sampleFolder.NewFolder "/c".data succeeding).err = none ∧
    folderNames (sampleFolder.NewFolder "/c".data succeeding).folder = ["a".data, "c".data] := by
  decide

/-! ## Sortedness and uniqueness under creates and deletes -/

theorem strict_insert {α : Type} (key : α → Str) (l : List α) (x : α)
    (h : (l.map key).Sorted (· < ·)) (hx : key x ∉ l.map key) :
    (((l ++ [x]).insertionSort (nameLE key)).map key).Sorted (· < ·) := by
  have hnd : ((l ++ [x]).map key).Nodup := by
    rw [List.map_append, List.map_singleton]
    exact List.Nodup.append h.nodup (List.nodup_singleton _)
      (by simpa [List.Disjoint] using hx)
  have hnd2 : (((l ++ [x]).insertionSort (nameLE key)).map key).Nodup :=
    (sort_names_perm key (l ++ [x])).nodup_iff.2 hnd
  exact (sort_sorted key (l ++ [x])).lt_of_le hnd2

theorem strict_remove {α : Type} (key : α → Str) (l : List α) (i : Nat)
    (h : (l.map key).Sorted (· < ·)) :
    (((l.take i ++ l.drop (i + 1)).insertionSort (nameLE key)).map key).Sorted (· < ·) := by
  have hs : (l.take i ++ l.drop (i + 1)).Sublist l := by
    rw [← List.eraseIdx_eq_take_drop_succ]
    exact List.eraseIdx_sublist l i
  have h1 : ((l.take i ++ l.drop (i + 1)).map key).Sorted (· < ·) :=
    List.Pairwise.sublist (hs.map key) h
  rw [sort_eq_self key _ h1.le_of_lt]
  exact h1

theorem strictlySorted_newFolder (f : Folder) (name : Str) (h : FolderShadow → Option Err)
    (hf : StrictlySorted f) : StrictlySorted (f.NewFolder name h).folder := by
  by_cases hv : ValidName (normName name)
  · by_cases hu : normName name ∈ childNames f
    · rw [newFolder_used f name h hv hu]; exact hf
    · rw [newFolder_checked f name h hv hu, newFolderShadow_norm f name hv]
      cases h { Full := Join f.Full (normName name), Name := normName name } with
      | some err => exact hf
      | none =>
        refine ⟨hf.1, ?_⟩
        have hn : normName name ∉ folderNames f := fun hm =>
          hu (List.mem_append.2 (Or.inl hm))
        exact strict_insert FolderShadow.Name f.Folders _ hf.2 hn
  · rw [newFolder_invalid f name h hv]; exact hf

theorem strictlySorted_newFile (f : Folder) (name : Str) (now : Time)
    (hf : StrictlySorted f) : StrictlySorted (f.NewFile name now).folder := by
  by_cases hv : ValidName (normName name)
  · by_cases hu : normName name ∈ childNames f
    · rw [newFile_used f name now hv hu]; exact hf
    · rw [newFile_checked f name now hv hu]
      refine ⟨?_, hf.2⟩
      have hn : normName name ∉ fileNames f := fun hm =>
        hu (List.mem_append.2 (Or.inr hm))
      exact strict_insert File.Name f.Files (newFile (normName name) now) hf.1 hn
  · rw [newFile_invalid f name now hv]; exact hf

theorem strictlySorted_deleteFolder (f : Folder) (name : Str) (h : Str → Option Err)
    (hf : StrictlySorted f) : StrictlySorted (f.DeleteFolder name h).folder := by
  cases hr : rangeFind FolderShadow.Name name f.Folders with
  | none =>
    rw [deleteFolder_absent f name h
      (fun hm => by rw [folderNames, ← rangeFind_isSome, hr] at hm; simp at hm)]
    exact hf
  | some p =>
    obtain ⟨i, s⟩ := p
    rw [deleteFolder_found f name h i s hr]
    cases h (Join f.Full name) with
    | some err => exact hf
    | none => exact ⟨hf.1, strict_remove FolderShadow.Name f.Folders i hf.2⟩

theorem strictlySorted_deleteFile (f : Folder) (name : Str) (h : File → Option Err)
    (hf : StrictlySorted f) : StrictlySorted (f.DeleteFile name h).folder := by
  cases hr : rangeFind File.Name name f.Files with
  | none =>
    rw [deleteFile_absent f name h
      (fun hm => by rw [fileNames, ← rangeFind_isSome, hr] at hm; simp at hm)]
    exact hf
  | some p =>
    obtain ⟨i, sf⟩ := p
    rw [deleteFile_found f name h i sf hr]
    cases h sf with
    | some err => exact hf
    | none => exact ⟨strict_remove File.Name f.Files i hf.1, hf.2⟩

theorem strictlySorted_apply (f : Folder) (op : Op) (hf : StrictlySorted f) :
    StrictlySorted (op.apply f) := by
  cases op with
  | newFolder name h => exact strictlySorted_newFolder f name h hf
  | newFile name now => exact strictlySorted_newFile f name now hf
  | deleteFolder name h => exact strictlySorted_deleteFolder f name h hf
  | deleteFile name h => exact strictlySorted_deleteFile f name h hf

theorem strictlySorted_runOps (ops : List Op) (f : Folder) (hf : StrictlySorted f) :
    StrictlySorted (runOps f ops) := by
  induction ops generalizing f with
  | nil => exact hf
  | cons op ops ih => exact ih (op.apply f) (strictlySorted_apply f op hf)

/-- C4. Sortedness and uniqueness are invariant under creates and deletes:
starting from the empty folder `NewFolder(path)`, after any finite sequence of
`NewFolder`, `NewFile`, `DeleteFolder` and `DeleteFile` calls, with any names
and any handlers, the files are sorted by name, the folder shadows are sorted
by name, and neither collection holds a name twice. -/
theorem sorted_unique_after_ops (path : Str) (created modified : Time) (ops : List Op) :
    (fileNames (runOps (NewFolder path created modified) ops)).Sorted (· ≤ ·) ∧
    (folderNames (runOps (NewFolder path created modified) ops)).Sorted (· ≤ ·) ∧
    (fileNames (runOps (NewFolder path created modified) ops)).Nodup ∧
    (folderNames (runOps (NewFolder path created modified) ops)).Nodup := by
  have h0 : StrictlySorted (NewFolder path created modified) := by
    simp [StrictlySorted, NewFolder, fileNames, folderNames]
  have h := strictlySorted_runOps ops _ h0
  exact ⟨h.1.le_of_lt, h.2.le_of_lt, h.1.nodup, h.2.nodup⟩

/-! ## Uniqueness of sibling names -/

theorem remove_sublist {α : Type} (l : List α) (i : Nat) :
    (l.take i ++ l.drop (i + 1)).Sublist l := by
  rw [← List.eraseIdx_eq_take_drop_succ]
  exact List.eraseIdx_sublist l i

/-- The slice after `xs[i] = r` at the index a range loop stopped at. -/
theorem set_at_found {α : Type} (key : α → Str) (name : Str) (l : List α) (i : Nat) (x r : α)
    (h : rangeFind key name l = some (i, x)) :
    l.set i r = l.take i ++ r :: l.drop (i + 1) := by
  obtain ⟨-, h2, h3, -⟩ := rangeFind_eq_some key name l i x h
  have hlt : i < l.length := by
    have := congrArg List.length h2
    simp only [List.length_append, List.length_cons, h3] at this
    omega
  rw [List.set_eq_take_append_cons_drop, if_pos hlt]

theorem childNames_nodup_newFolder (f : Folder) (name : Str) (h : FolderShadow → Option Err)
    (hf : (childNames f).Nodup) : (childNames (f.NewFolder name h).folder).Nodup := by
  by_cases hv : ValidName (normName name)
  · by_cases hu : normName name ∈ childNames f
    · rw [newFolder_used f name h hv hu]; exact hf
    · rw [newFolder_checked f name h hv hu, newFolderShadow_norm f name hv]
      cases h { Full := Join f.Full (normName name), Name := normName name } with
      | some err => exact hf
      | none =>
        have hp : (childNames { f with Folders := (FolderShadows.Sort
            (f.Folders ++ [{ Full := Join f.Full (normName name), Name := normName name }])) }).Perm
            (normName name :: childNames f) := by
          simp only [childNames, folderNames, fileNames]
          have h1 := sort_names_perm FolderShadow.Name
            (f.Folders ++ [{ Full := Join f.Full (normName name), Name := normName name }])
          rw [List.map_append, List.map_singleton] at h1
          refine (List.Perm.append_right _ h1).trans ?_
          rw [List.append_assoc]
          exact (List.perm_middle).trans (by simp)
        exact hp.nodup_iff.2 (List.nodup_cons.2 ⟨hu, hf⟩)
  · rw [newFolder_invalid f name h hv]; exact hf

theorem childNames_nodup_newFile (f : Folder) (name : Str) (now : Time)
    (hf : (childNames f).Nodup) : (childNames (f.NewFile name now).folder).Nodup := by
  by_cases hv : ValidName (normName name)
  · by_cases hu : normName name ∈ childNames f
    · rw [newFile_used f name now hv hu]; exact hf
    · rw [newFile_checked f name now hv hu]
      have hp : (childNames { f with Files := (Files.Sort
          (f.Files ++ [newFile (normName name) now])) }).Perm
          (childNames f ++ [normName name]) := by
        simp only [childNames, folderNames, fileNames]
        have h1 := sort_names_perm File.Name (f.Files ++ [newFile (normName name) now])
        rw [List.map_append, List.map_singleton] at h1
        rw [List.append_assoc]
        exact List.Perm.append_left _ h1
      refine hp.nodup_iff.2 ?_
      refine List.Nodup.append hf (List.nodup_singleton _) ?_
      intro a ha hb
      rw [List.mem_singleton] at hb
      exact hu (hb ▸ ha)
  · rw [newFile_invalid f name now hv]; exact hf

theorem childNames_nodup_removeFolder (f : Folder) (i : Nat) (hf : (childNames f).Nodup) :
    (childNames { f with
      Folders := FolderShadows.Sort (f.Folders.take i ++ f.Folders.drop (i + 1)) }).Nodup := by
  have h1 := sort_names_perm FolderShadow.Name (f.Folders.take i ++ f.Folders.drop (i + 1))
  have h2 := (remove_sublist f.Folders i).map FolderShadow.Name
  simp only [childNames, folderNames, fileNames] at hf ⊢
  refine (List.Perm.append_right _ h1).nodup_iff.2 ?_
  exact List.Nodup.sublist (List.Sublist.append h2 (List.Sublist.refl _)) hf

theorem childNames_nodup_removeFile (f : Folder) (i : Nat) (hf : (childNames f).Nodup) :
    (childNames { f with
      Files := Files.Sort (f.Files.take i ++ f.Files.drop (i + 1)) }).Nodup := by
  have h1 := sort_names_perm File.Name (f.Files.take i ++ f.Files.drop (i + 1))
  have h2 := (remove_sublist f.Files i).map File.Name
  simp only [childNames, folderNames, fileNames] at hf ⊢
  refine (List.Perm.append_left _ h1).nodup_iff.2 ?_
  exact List.Nodup.sublist (List.Sublist.append (List.Sublist.refl _) h2) hf

theorem childNames_nodup_deleteFolder (f : Folder) (name : Str) (h : Str → Option Err)
    (hf : (childNames f).Nodup) : (childNames (f.DeleteFolder name h).folder).Nodup := by
  cases hr : rangeFind FolderShadow.Name name f.Folders with
  | none =>
    rw [deleteFolder_absent f name h
      (fun hm => by rw [folderNames, ← rangeFind_isSome, hr] at hm; simp at hm)]
    exact hf
  | some p =>
    obtain ⟨i, s⟩ := p
    rw [deleteFolder_found f name h i s hr]
    cases h (Join f.Full name) with
    | some err => exact hf
    | none => exact childNames_nodup_removeFolder f i hf

theorem childNames_nodup_deleteFile (f : Folder) (name : Str) (h : File → Option Err)
    (hf : (childNames f).Nodup) : (childNames (f.DeleteFile name h).folder).Nodup := by
  cases hr : rangeFind File.Name name f.Files with
  | none =>
    rw [deleteFile_absent f name h
      (fun hm => by rw [fileNames, ← rangeFind_isSome, hr] at hm; simp at hm)]
    exact hf
  | some p =>
    obtain ⟨i, sf⟩ := p
    rw [deleteFile_found f name h i sf hr]
    cases h sf with
    | some err => exact hf
    | none => exact childNames_nodup_removeFile f i hf

theorem replaceFile_none (f : Folder) (name : Str) :
    f.ReplaceFile name none =
      match rangeFind File.Name name f.Files with
      | some (i, _) => { f with Files := Files.Sort (f.Files.take i ++ f.Files.drop (i + 1)) }
      | none => f := by
  unfold Folder.ReplaceFile
  cases rangeFind File.Name name f.Files with
  | none => rfl
  | some p => rfl

theorem replaceFile_some (f : Folder) (name : Str) (r : File) :
    f.ReplaceFile name (some r) =
      match rangeFind File.Name name f.Files with
      | some (i, _) => { f with Files := Files.Sort (f.Files.take i ++ r :: f.Files.drop (i + 1)) }
      | none => { f with Files := Files.Sort (f.Files ++ [r]) } := by
  unfold Folder.ReplaceFile
  cases hr : rangeFind File.Name name f.Files with
  | none => rfl
  | some p =>
    obtain ⟨i, x⟩ := p
    simp only
    rw [set_at_found File.Name name f.Files i x r hr]

theorem childNames_nodup_replaceFile_none (f : Folder) (name : Str)
    (hf : (childNames f).Nodup) : (childNames (f.ReplaceFile name none)).Nodup := by
  rw [replaceFile_none]
  cases hr : rangeFind File.Name name f.Files with
  | none => exact hf
  | some p =>
    obtain ⟨i, x⟩ := p
    exact childNames_nodup_removeFile f i hf

theorem childNames_nodup_replaceFile_some (f : Folder) (name : Str) (r : File)
    (hf : (childNames f).Nodup) (h1 : r.Name ∉ folderNames f)
    (h2 : r.Name ∈ fileNames f → r.Name = name) :
    (childNames (f.ReplaceFile name (some r))).Nodup := by
  rw [replaceFile_some]
  cases hr : rangeFind File.Name name f.Files with
  | none =>
    have hn : r.Name ∉ fileNames f := by
      intro hm
      have := (rangeFind_isSome File.Name name f.Files).2 (h2 hm ▸ hm)
      rw [hr] at this
      simp at this
    have hp := sort_names_perm File.Name (f.Files ++ [r])
    simp only [childNames, folderNames, fileNames] at hf h1 hn ⊢
    refine (List.Perm.append_left _ hp).nodup_iff.2 ?_
    rw [List.map_append, List.map_singleton, ← List.append_assoc]
    refine List.Nodup.append hf (List.nodup_singleton _) ?_
    intro a ha hb
    rw [List.mem_singleton] at hb
    subst hb
    rcases List.mem_append.1 ha with h | h
    · exact h1 h
    · exact hn h
  | some p =>
    obtain ⟨i, x⟩ := p
    obtain ⟨hk, hl, -, -⟩ := rangeFind_eq_some File.Name name f.Files i x hr
    have hp := sort_names_perm File.Name (f.Files.take i ++ r :: f.Files.drop (i + 1))
    have hfiles : fileNames f =
        (f.Files.take i).map File.Name ++ name :: (f.Files.drop (i + 1)).map File.Name := by
      conv_lhs => rw [fileNames, hl]
      rw [List.map_append, List.map_cons, hk]
    simp only [childNames] at hf ⊢
    rw [hfiles] at hf h2
    simp only [folderNames, fileNames] at hf h1 h2 ⊢
    refine (List.Perm.append_left _ hp).nodup_iff.2 ?_
    rw [List.map_append, List.map_cons]
    rw [List.nodup_append] at hf ⊢
    obtain ⟨hf1, hf2, hf3⟩ := hf
    rw [List.nodup_middle, List.nodup_cons] at hf2
    refine ⟨hf1, ?_, ?_⟩
    · rw [List.nodup_middle, List.nodup_cons]
      refine ⟨fun hm => ?_, hf2.2⟩
      have hmem : r.Name ∈ List.map File.Name (List.take i f.Files) ++
          name :: List.map File.Name (List.drop (i + 1) f.Files) := by
        rcases List.mem_append.1 hm with h | h
        · exact List.mem_append.2 (Or.inl h)
        · exact List.mem_append.2 (Or.inr (List.mem_cons_of_mem _ h))
      exact hf2.1 (h2 hmem ▸ hm)
    · intro a ha hb
      rcases List.mem_append.1 hb with h | h
      · exact hf3 ha (List.mem_append.2 (Or.inl h))
      · rcases List.mem_cons.1 h with h | h
        · exact h1 (h ▸ ha)
        · exact hf3 ha (List.mem_append.2 (Or.inr (List.mem_cons_of_mem _ h)))

/-- C5, as the code has it. Sibling-name uniqueness: in a folder whose direct
children, folder shadows and files together, have pairwise different names,
this is still so after one call of `NewFolder`, `NewFile`, `DeleteFolder` or
`DeleteFile` (any name, any handler), after `ReplaceFile` without a
replacement, and after `ReplaceFile` with a replacement whose name is used by
no folder shadow and by no file other than the one named `name`. -/
theorem sibling_names_unique (f : Folder) (hf : (childNames f).Nodup) (name : Str) :
    (∀ (h : FolderShadow → Option Err), (childNames (f.NewFolder name h).folder).Nodup) ∧
    (∀ (now : Time), (childNames (f.NewFile name now).folder).Nodup) ∧
    (∀ (h : Str → Option Err), (childNames (f.DeleteFolder name h).folder).Nodup) ∧
    (∀ (h : File → Option Err), (childNames (f.DeleteFile name h).folder).Nodup) ∧
    (childNames (f.ReplaceFile name none)).Nodup ∧
    (∀ (r : File), r.Name ∉ folderNames f → (r.Name ∈ fileNames f → r.Name = name) →
      (childNames (f.ReplaceFile name (some r))).Nodup) :=
  ⟨fun h => childNames_nodup_newFolder f name h hf,
    fun now => childNames_nodup_newFile f name now hf,
    fun h => childNames_nodup_deleteFolder f name h hf,
    fun h => childNames_nodup_deleteFile f name h hf,
    childNames_nodup_replaceFile_none f name hf,
    fun r h1 h2 => childNames_nodup_replaceFile_some f name r hf h1 h2⟩

theorem sibling_names_unique_witness :
    (childNames sampleFolder).Nodup ∧
    (childNames (sampleFolder.NewFolder "c".data succeeding).folder).Nodup ∧
    (childNames (sampleFolder.ReplaceFile "b".data
      (some { newFile "b".data 2 with Size := 7 }))).Nodup ∧
    (childNames (sampleFolder.ReplaceFile "b".data (some (newFile "c".data 2)))).Nodup :=
  ⟨by decide,
    (sibling_names_unique sampleFolder (by decide) "c".data).1 succeeding,
    (sibling_names_unique sampleFolder (by decide) "b".data).2.2.2.2.2
      { newFile "b".data 2 with Size := 7 } (by decide) (by decide),
    (sibling_names_unique sampleFolder (by decide) "b".data).2.2.2.2.2
      (newFile "c".data 2) (by decide) (by decide)⟩

/-- C5 fails as stated: the children of the folder have different names, and
after `ReplaceFile("b", r)` with a record `r` named `a` the file `a` and the
folder `a` share their name. -/
theorem sibling_names_unique_counterexample :
    (childNames sampleFolder).Nodup ∧
    childNames (sampleFolder.ReplaceFile "b".data (some (newFile "a".data 2))) =
      ["a".data, "a".data] ∧
    ¬ (childNames (sampleFolder.ReplaceFile "b".data (some (newFile "a".data 2)))).Nodup := by
  decide

/-! ## Create, then look up -/

/-- A lookup in a permuted list: when a single entry carries the name, the
range loop stops at it wherever it stands. -/
theorem rangeFind_of_perm {α : Type} (key : α → Str) (name : Str) (l l2 : List α) (x : α)
    (hp : l2.Perm (l ++ [x])) (hk : key x = name) (hn : name ∉ l.map key) :
    ∃ i, rangeFind key name l2 = some (i, x) := by
  refine rangeFind_unique key name l2 x (hp.mem_iff.2 (by simp)) hk ?_
  intro y hy hky
  rcases List.mem_append.1 (hp.mem_iff.1 hy) with h | h
  · exact absurd (List.mem_map.2 ⟨y, h, hky⟩) hn
  · simpa using h

/-- C6. Create-folder then lookup: for a valid single-segment name used by no
child and a handler that accepts the new shadow, `NewFolder` succeeds, the
handler was invoked once, with the shadow of full path `Join(f.Full, name)`
that is linked into `Folders`, and `Folder(name)` then returns that path. -/
theorem create_folder_then_lookup (f : Folder) (name : Str) (h : FolderShadow → Option Err)
    (hv : ValidName name) (hu : name ∉ childNames f)
    (hok : h { Full := Join f.Full name, Name := name } = none) :
    (f.NewFolder name h).err = none ∧
    (f.NewFolder name h).calls = [{ Full := Join f.Full name, Name := name }] ∧
    { Full := Join f.Full name, Name := name } ∈ (f.NewFolder name h).folder.Folders ∧
    (f.NewFolder name h).folder.Folder name = some (Join f.Full name) := by
  have hn : normName name = name := normName_valid hv
  have hv2 : ValidName (normName name) := by rw [hn]; exact hv
  have hu2 : normName name ∉ childNames f := by rw [hn]; exact hu
  rw [newFolder_checked f name h hv2 hu2, newFolderShadow_norm f name hv2, hn, hok]
  refine ⟨rfl, rfl, ?_, ?_⟩
  · exact (sort_perm FolderShadow.Name _).mem_iff.2 (by simp)
  · have hnf : name ∉ f.Folders.map FolderShadow.Name := fun hm =>
      hu (List.mem_append.2 (Or.inl hm))
    obtain ⟨i, hi⟩ := rangeFind_of_perm FolderShadow.Name name f.Folders _
      { Full := Join f.Full name, Name := name } (sort_perm FolderShadow.Name _) rfl hnf
    simp only [Folder.Folder]
    rw [shadows_sort_eq, hi]

theorem create_folder_then_lookup_witness :
    (sampleFolder.NewFolder "c".data succeeding).err = none ∧
    (sampleFolder.NewFolder "c".data succeeding).calls =
      [{ Full := Join sampleFolder.Full "c".data, Name := "c".data }] ∧
    { Full := Join sampleFolder.Full "c".data, Name := "c".data } ∈
      (sampleFolder.NewFolder "c".data succeeding).folder.Folders ∧
    (sampleFolder.NewFolder "c".data succeeding).folder.Folder "c".data =
      some (Join sampleFolder.Full "c".data) :=
  create_folder_then_lookup sampleFolder "c".data succeeding (by decide) (by decide) rfl

/-- C7. Create-file then lookup: for a valid single-segment name used by no
child, `NewFile` succeeds and returns a record which `File(name)` then
returns too; its name is `name`, its size 0, it is not locked, and the folder
has one file more. -/
theorem create_file_then_lookup (f : Folder) (name : Str) (now : Time)
    (hv : ValidName name) (hu : name ∉ childNames f) :
    (f.NewFile name now).err = none ∧
    ∃ nf, (f.NewFile name now).file = some nf ∧
      (f.NewFile name now).folder.File name = some nf ∧
      nf.Name = name ∧ nf.Size = 0 ∧ nf.Locked = false ∧
      (f.NewFile name now).folder.Files.length = f.Files.length + 1 := by
  have hn : normName name = name := normName_valid hv
  have hv2 : ValidName (normName name) := by rw [hn]; exact hv
  have hu2 : normName name ∉ childNames f := by rw [hn]; exact hu
  rw [newFile_checked f name now hv2 hu2, hn]
  refine ⟨rfl, newFile name now, rfl, ?_, rfl, rfl, rfl, ?_⟩
  · have hnf : name ∉ f.Files.map File.Name := fun hm =>
      hu (List.mem_append.2 (Or.inr hm))
    obtain ⟨i, hi⟩ := rangeFind_of_perm File.Name name f.Files _
      (newFile name now) (sort_perm File.Name _) rfl hnf
    simp only [Folder.File]
    rw [files_sort_eq, hi]
  · simp only [files_sort_eq]
    rw [sort_length]
    simp

theorem create_file_then_lookup_witness :
    (sampleFolder.NewFile "c".data 2).err = none ∧
    ∃ nf, (sampleFolder.NewFile "c".data 2).file = some nf ∧
      (sampleFolder.NewFile "c".data 2).folder.File "c".data = some nf ∧
      nf.Name = "c".data ∧ nf.Size = 0 ∧ nf.Locked = false ∧
      (sampleFolder.NewFile "c".data 2).folder.Files.length = sampleFolder.Files.length + 1 :=
  create_file_then_lookup sampleFolder "c".data 2 (by decide) (by decide)

/-! ## Successful deletes -/

/-- With pairwise different names, dropping the entry a range loop stopped at
drops exactly the entries of that name. -/
theorem remove_eq_filter {α : Type} (key : α → Str) (name : Str) (l : List α) (i : Nat) (x : α)
    (h : rangeFind key name l = some (i, x)) (hnd : (l.map key).Nodup) :
    l.take i ++ l.drop (i + 1) = l.filter (fun y => key y ≠ name) := by
  obtain ⟨hk, hl, -, hbefore⟩ := rangeFind_eq_some key name l i x h
  have hnd2 := hnd
  rw [hl, List.map_append, List.map_cons, hk, List.nodup_middle, List.nodup_cons] at hnd2
  have hafter : ∀ y ∈ l.drop (i + 1), key y ≠ name := fun y hy hky =>
    hnd2.1 (List.mem_append.2 (Or.inr (List.mem_map.2 ⟨y, hy, hky⟩)))
  conv_rhs => rw [hl]
  rw [List.filter_append, List.filter_cons]
  simp only [hk, ne_eq, not_true_eq_false, decide_False, Bool.false_eq_true, if_false]
  rw [List.filter_eq_self.2 (fun y hy => by simpa using hbefore y hy),
    List.filter_eq_self.2 (fun y hy => by simpa using hafter y hy)]

theorem remove_length {α : Type} (key : α → Str) (name : Str) (l : List α) (i : Nat) (x : α)
    (h : rangeFind key name l = some (i, x)) :
    (l.take i ++ l.drop (i + 1)).length + 1 = l.length := by
  obtain ⟨-, hl, -, -⟩ := rangeFind_eq_some key name l i x h
  conv_rhs => rw [hl]
  simp only [List.length_append, List.length_cons]
  omega

theorem not_mem_names_filter {α : Type} (key : α → Str) (name : Str) (l : List α) :
    name ∉ (l.filter (fun y => key y ≠ name)).map key := by
  intro hm
  obtain ⟨y, hy, hk⟩ := List.mem_map.1 hm
  have := (List.mem_filter.1 hy).2
  simp [hk] at this

/-- C8. Successful delete removes exactly the named entry: in a folder whose
collections are sorted by name without duplicates, when a child folder (resp.
a file) has the name and the handler accepts, `DeleteFolder` (resp.
`DeleteFile`) succeeds, the handler received `Join(f.Full, name)` (resp. the
stored record), the lookup of the name then finds nothing, and the collection
is the former one without that entry, in the same order and one shorter. -/
theorem delete_removes_named (f : Folder) (name : Str)
    (hsF : (folderNames f).Sorted (· ≤ ·)) (hnF : (folderNames f).Nodup)
    (hsL : (fileNames f).Sorted (· ≤ ·)) (hnL : (fileNames f).Nodup) :
    (∀ (h : Str → Option Err), name ∈ folderNames f → h (Join f.Full name) = none →
      (f.DeleteFolder name h).err = none ∧
      (f.DeleteFolder name h).calls = [Join f.Full name] ∧
      (f.DeleteFolder name h).folder.Folder name = none ∧
      (f.DeleteFolder name h).folder.Folders = f.Folders.filter (fun fs => fs.Name ≠ name) ∧
      (f.DeleteFolder name h).folder.Folders.length + 1 = f.Folders.length ∧
      (f.DeleteFolder name h).folder.Files = f.Files) ∧
    (∀ (h : File → Option Err) (sf : File), f.File name = some sf → h sf = none →
      (f.DeleteFile name h).err = none ∧
      (f.DeleteFile name h).calls = [sf] ∧
      (f.DeleteFile name h).folder.File name = none ∧
      (f.DeleteFile name h).folder.Files = f.Files.filter (fun x => x.Name ≠ name) ∧
      (f.DeleteFile name h).folder.Files.length + 1 = f.Files.length ∧
      (f.DeleteFile name h).folder.Folders = f.Folders) := by
  refine ⟨fun h hex hok => ?_, fun h sf hex hok => ?_⟩
  · cases hr : rangeFind FolderShadow.Name name f.Folders with
    | none =>
      rw [folderNames, ← rangeFind_isSome, hr] at hex
      simp at hex
    | some p =>
      obtain ⟨i, s⟩ := p
      have hsorted : ((f.Folders.take i ++ f.Folders.drop (i + 1)).map
          FolderShadow.Name).Sorted (· ≤ ·) := sorted_remove FolderShadow.Name f.Folders i hsF
      have hfil := remove_eq_filter FolderShadow.Name name f.Folders i s hr hnF
      have hlen := remove_length FolderShadow.Name name f.Folders i s hr
      rw [deleteFolder_found f name h i s hr, hok]
      simp only
      rw [shadows_sort_eq, sort_eq_self FolderShadow.Name _ hsorted]
      refine ⟨trivial, trivial, ?_, hfil, hlen, trivial⟩
      rw [folder_eq_none]
      simp only [folderNames]
      rw [hfil]
      exact not_mem_names_filter FolderShadow.Name name f.Folders
  · cases hr : rangeFind File.Name name f.Files with
    | none =>
      simp only [Folder.File, hr] at hex
      simp at hex
    | some p =>
      obtain ⟨i, x⟩ := p
      have hx : x = sf := by
        simp only [Folder.File, hr] at hex
        simpa using hex
      subst hx
      have hsorted : ((f.Files.take i ++ f.Files.drop (i + 1)).map File.Name).Sorted (· ≤ ·) :=
        sorted_remove File.Name f.Files i hsL
      have hfil := remove_eq_filter File.Name name f.Files i x hr hnL
      have hlen := remove_length File.Name name f.Files i x hr
      rw [deleteFile_found f name h i x hr, hok]
      simp only
      rw [files_sort_eq, sort_eq_self File.Name _ hsorted]
      refine ⟨trivial, trivial, ?_, hfil, hlen, trivial⟩
      rw [file_eq_none]
      simp only [fileNames]
      rw [hfil]
      exact not_mem_names_filter File.Name name f.Files


theorem delete_removes_named_witness :
    ((sampleFolder.DeleteFolder "a".data succeeding).err = none ∧
      (sampleFolder.DeleteFolder "a".data succeeding).calls = [Join sampleFolder.Full "a".data] ∧
      (sampleFolder.DeleteFolder "a".data succeeding).folder.Folder "a".data = none ∧
      (sampleFolder.DeleteFolder "a".data succeeding).folder.Folders =
        sampleFolder.Folders.filter (fun fs => fs.Name ≠ "a".data) ∧
      (sampleFolder.DeleteFolder "a".data succeeding).folder.Folders.length + 1 =
        sampleFolder.Folders.length ∧
      (sampleFolder.DeleteFolder "a".data succeeding).folder.Files = sampleFolder.Files) ∧
    ((sampleFolder.DeleteFile "b".data succeeding).err = none ∧
      (sampleFolder.DeleteFile "b".data succeeding).calls = [newFile "b".data 1] ∧
      (sampleFolder.DeleteFile "b".data succeeding).folder.File "b".data = none ∧
      (sampleFolder.DeleteFile "b".data succeeding).folder.Files =
        sampleFolder.Files.filter (fun x => x.Name ≠ "b".data) ∧
      (sampleFolder.DeleteFile "b".data succeeding).folder.Files.length + 1 =
        sampleFolder.Files.length ∧
      (sampleFolder.DeleteFile "b".data succeeding).folder.Folders = sampleFolder.Folders) :=
  ⟨(delete_removes_named sampleFolder "a".data (by decide) (by decide) (by decide)
      (by decide)).1 succeeding (by decide) rfl,
    (delete_removes_named sampleFolder "b".data (by decide) (by decide) (by decide)
      (by decide)).2 succeeding (newFile "b".data 1) (by decide) rfl⟩

/-! ## `ReplaceFile` -/

theorem replace_eq_map {α : Type} (key : α → Str) (name : Str) (l : List α) (i : Nat) (x r : α)
    (h : rangeFind key name l = some (i, x)) (hnd : (l.map key).Nodup) :
    l.take i ++ r :: l.drop (i + 1) = l.map (fun y => if key y = name then r else y) := by
  obtain ⟨hk, hl, -, hbefore⟩ := rangeFind_eq_some key name l i x h
  have hnd2 := hnd
  rw [hl, List.map_append, List.map_cons, hk, List.nodup_middle, List.nodup_cons] at hnd2
  have hafter : ∀ y ∈ l.drop (i + 1), key y ≠ name := fun y hy hky =>
    hnd2.1 (List.mem_append.2 (Or.inr (List.mem_map.2 ⟨y, hy, hky⟩)))
  have hid : ∀ (m : List α), (∀ y ∈ m, key y ≠ name) →
      m.map (fun y => if key y = name then r else y) = m := by
    intro m hm
    conv_rhs => rw [← List.map_id m]
    exact List.map_congr_left (fun y hy => by simp [hm y hy])
  conv_rhs => rw [hl]
  rw [List.map_append, List.map_cons, hid _ hbefore, hid _ hafter]
  simp [hk]

/-- C10. `ReplaceFile` on sorted, duplicate-free files: (1) when a file has the
name and no replacement is given, that one entry is removed; (2) when a file
has the name and `r` is given, `r` takes the place of that entry (at the very
position when `r` carries the same name) and the count is unchanged; (3) when
no file has the name and `r` is given, `r` is added and the count grows by
one; (4) when no file has the name and no replacement is given, nothing
changes. The files are sorted by name afterwards in every case. -/
theorem replaceFile_semantics (f : Folder) (name : Str)
    (hs : (fileNames f).Sorted (· ≤ ·)) (hn : (fileNames f).Nodup) :
    (name ∈ fileNames f →
      (f.ReplaceFile name none).Files = f.Files.filter (fun x => x.Name ≠ name) ∧
      (f.ReplaceFile name none).Files.length + 1 = f.Files.length) ∧
    (name ∈ fileNames f → ∀ (r : File),
      (f.ReplaceFile name (some r)).Files.Perm (r :: f.Files.filter (fun x => x.Name ≠ name)) ∧
      (r.Name = name → (f.ReplaceFile name (some r)).Files =
        f.Files.map (fun x => if x.Name = name then r else x)) ∧
      (f.ReplaceFile name (some r)).Files.length = f.Files.length) ∧
    (name ∉ fileNames f → ∀ (r : File),
      (f.ReplaceFile name (some r)).Files.Perm (r :: f.Files) ∧
      (f.ReplaceFile name (some r)).Files.length = f.Files.length + 1) ∧
    (name ∉ fileNames f → (f.ReplaceFile name none).Files = f.Files) ∧
    (∀ (file : Option File), (fileNames (f.ReplaceFile name file)).Sorted (· ≤ ·)) := by
  refine ⟨fun hex => ?_, fun hex r => ?_, fun hab r => ?_, fun hab => ?_, fun file => ?_⟩
  · cases hr : rangeFind File.Name name f.Files with
    | none => rw [fileNames, ← rangeFind_isSome, hr] at hex; simp at hex
    | some p =>
      obtain ⟨i, x⟩ := p
      rw [replaceFile_none, hr]
      simp only
      rw [files_sort_eq, sort_eq_self File.Name _ (sorted_remove File.Name f.Files i hs),
        remove_eq_filter File.Name name f.Files i x hr hn]
      refine ⟨rfl, ?_⟩
      rw [← remove_eq_filter File.Name name f.Files i x hr hn]
      exact remove_length File.Name name f.Files i x hr
  · cases hr : rangeFind File.Name name f.Files with
    | none => rw [fileNames, ← rangeFind_isSome, hr] at hex; simp at hex
    | some p =>
      obtain ⟨i, x⟩ := p
      have hlen := remove_length File.Name name f.Files i x hr
      rw [replaceFile_some, hr]
      simp only
      rw [files_sort_eq]
      refine ⟨?_, ?_, ?_⟩
      · refine (sort_perm File.Name _).trans ?_
        rw [← remove_eq_filter File.Name name f.Files i x hr hn]
        exact List.perm_middle
      · intro hrn
        have hmap := replace_eq_map File.Name name f.Files i x r hr hn
        have hnames : (f.Files.take i ++ r :: f.Files.drop (i + 1)).map File.Name =
            f.Files.map File.Name := by
          rw [hmap, List.map_map]
          refine List.map_congr_left (fun y _ => ?_)
          by_cases hy : y.Name = name
          · simp [hy, hrn]
          · simp [hy]
        rw [sort_eq_self File.Name _ (by rw [hnames]; exact hs), hmap]
      · rw [sort_length]
        simp only [List.length_append, List.length_cons] at hlen ⊢
        omega
  · have hr : rangeFind File.Name name f.Files = none := by
      rw [rangeFind_eq_none]
      exact fun x hx hk => hab (List.mem_map.2 ⟨x, hx, hk⟩)
    rw [replaceFile_some, hr]
    simp only
    rw [files_sort_eq]
    refine ⟨(sort_perm File.Name _).trans ?_, ?_⟩
    · exact (List.perm_append_comm).trans (by simp)
    · rw [sort_length]; simp
  · have hr : rangeFind File.Name name f.Files = none := by
      rw [rangeFind_eq_none]
      exact fun x hx hk => hab (List.mem_map.2 ⟨x, hx, hk⟩)
    rw [replaceFile_none, hr]
  · cases file with
    | none =>
      rw [replaceFile_none]
      cases hr : rangeFind File.Name name f.Files with
      | none => exact hs
      | some p => exact sort_sorted File.Name _
    | some r =>
      rw [replaceFile_some]
      cases hr : rangeFind File.Name name f.Files with
      | none => exact sort_sorted File.Name _
      | some p => exact sort_sorted File.Name _

theorem replaceFile_semantics_witness :
    ((sampleFolder.ReplaceFile "b".data none).Files =
        sampleFolder.Files.filter (fun x => x.Name ≠ "b".data) ∧
      (sampleFolder.ReplaceFile "b".data none).Files.length + 1 = sampleFolder.Files.length) ∧
    ((sampleFolder.ReplaceFile "c".data (some (newFile "c".data 3))).Files.Perm
        (newFile "c".data 3 :: sampleFolder.Files) ∧
      (sampleFolder.ReplaceFile "c".data (some (newFile "c".data 3))).Files.length =
        sampleFolder.Files.length + 1) ∧
    (sampleFolder.ReplaceFile "b".data (some { newFile "b".data 3 with Size := 9 })).Files =
      [{ newFile "b".data 3 with Size := 9 }] :=
  ⟨(replaceFile_semantics sampleFolder "b".data (by decide) (by decide)).1 (by decide),
    (replaceFile_semantics sampleFolder "c".data (by decide) (by decide)).2.2.1 (by decide)
      (newFile "c".data 3),
    ((replaceFile_semantics sampleFolder "b".data (by decide) (by decide)).2.1 (by decide)
      { newFile "b".data 3 with Size := 9 }).2.1 rfl⟩

/-! ## `Size` and `Locked` -/

theorem size_loop (l : Files) (a : Nat) :
    l.foldl (fun s file => (s + file.Size) % 2 ^ 64) (a % 2 ^ 64) =
      (a + (l.map File.Size).sum) % 2 ^ 64 := by
  induction l generalizing a with
  | nil => simp
  | cons x l ih =>
    simp only [List.foldl_cons, List.map_cons, List.sum_cons]
    rw [ih (a % 2 ^ 64 + x.Size)]
    omega

/-- C11. `Size`: the sum of the sizes of the direct files, plus the
aggregator's value for `f.Folders` exactly when there are child folders, in
`uint64` arithmetic; without child folders the aggregator plays no part. -/
theorem folder_size (f : Folder) (h : FolderShadows → Nat) :
    (f.Folders = [] → f.Size h = (f.Files.map File.Size).sum % 2 ^ 64 ∧
      ∀ (h2 : FolderShadows → Nat), f.Size h2 = f.Size h) ∧
    (f.Folders ≠ [] → f.Size h = ((f.Files.map File.Size).sum + h f.Folders) % 2 ^ 64) := by
  have hloop : f.Files.foldl (fun s file => (s + file.Size) % 2 ^ 64) 0 =
      (f.Files.map File.Size).sum % 2 ^ 64 := by
    have := size_loop f.Files 0
    simpa using this
  refine ⟨fun he => ?_, fun hne => ?_⟩
  · have hs : ∀ (g : FolderShadows → Nat),
        f.Size g = (f.Files.map File.Size).sum % 2 ^ 64 := by
      intro g
      simp only [Folder.Size, he, List.length_nil, gt_iff_lt, Nat.lt_irrefl, if_false]
      exact hloop
    exact ⟨hs h, fun h2 => by rw [hs h2, hs h]⟩
  · have hpos : f.Folders.length > 0 := List.length_pos.2 hne
    simp only [Folder.Size, hpos, if_true]
    rw [hloop]
    omega

theorem folder_size_witness :
    twoFiles.Size (fun _ => 5) = 30 ∧ twoFilesOneFolder.Size (fun _ => 5) = 35 :=
  ⟨((folder_size twoFiles (fun _ => 5)).1 rfl).1.trans (by decide),
    ((folder_size twoFilesOneFolder (fun _ => 5)).2 (by decide)).trans (by decide)⟩

/-- C14. `Locked`: true exactly when some direct file is locked; false for a
folder without files; the child folders play no part. -/
theorem folder_locked (f : Folder) :
    (f.Locked = true ↔ ∃ file ∈ f.Files, file.Locked = true) ∧
    (f.Files = [] → f.Locked = false) ∧
    (∀ (g : Folder), g.Files = f.Files → g.Locked = f.Locked) := by
  refine ⟨?_, fun he => ?_, fun g hg => ?_⟩
  · simp [Folder.Locked, List.any_eq_true]
  · simp [Folder.Locked, he]
  · simp [Folder.Locked, hg]

theorem folder_locked_witness :
    (NewFolder "/x".data 1 1).Locked = false ∧
    ({ sampleFolder with Folders := [] } : Folder).Locked = sampleFolder.Locked :=
  ⟨(folder_locked (NewFolder "/x".data 1 1)).2.1 rfl,
    (folder_locked sampleFolder).2.2 { sampleFolder with Folders := [] } rfl⟩

/-! ## The read container -/

/-- C15, as the code has it. `Read` on a folder container: the constructor
leaves the stream function `nil`, and `Read` calls it without a test, so for
every folder, destination and bounds the call panics; it returns no error
value and writes nothing. -/
theorem read_on_folder_panics (folder : Option Folder) (w : Writer) (begins ends : Int) :
    (newReadContainerForFolder folder).Read w begins ends = ReadOutcome.panicked := by
  rfl

/-- C15 fails as stated: `Read` on the container of `sampleFolder`, with the
bounds 0 and 100, returns no error value. -/
theorem read_on_folder_counterexample :
    ¬ ∃ (w2 : Writer) (e : Err) (calls : List (Writer × Int × Int)),
      (newReadContainerForFolder (some sampleFolder)).Read [] 0 100 =
        ReadOutcome.returned w2 (some e) calls := by
  rintro ⟨w2, e, calls, h⟩
  have hp : (newReadContainerForFolder (some sampleFolder)).Read [] 0 100 = ReadOutcome.panicked := rfl
  exact ReadOutcome.noConfusion (hp.symm.trans h)


/-- C16. File read is pure delegation: `Read` on a container built for a file
with a stream function invokes that function once, with the destination and
the bounds it was given, and returns the function's result (and leaves the
destination as the function left it). -/
theorem read_on_file_delegates (file : Option File) (stream : StreamHandler) (w : Writer)
    (begins ends : Int) :
    (newReadContainerForFile file (some stream)).Read w begins ends =
      ReadOutcome.returned (stream w begins ends).1 (stream w begins ends).2
        [(w, begins, ends)] := by
  rfl

theorem read_on_file_delegates_witness :
    (newReadContainerForFile (some (newFile "b".data 1)) (some echoStream)).Read [] 0 100 =
      ReadOutcome.returned [0, 100] (some (Err.other "busy".data)) [([], 0, 100)] :=
  read_on_file_delegates (some (newFile "b".data 1)) echoStream [] 0 100

/-- C17. The read container is a two-variant union that `Type` discriminates:
built for a folder it reports `RT_Folder`, `Folder` returns that folder and
`File` returns `nil`; built for a file it reports `RT_File`, `File` returns
that file and `Folder` returns `nil`; the two tags differ and no constructed
container carries both a folder and a file. -/
theorem read_container_variants :
    (∀ (folder : Folder),
      (newReadContainerForFolder (some folder)).Type = RT_Folder ∧
      (newReadContainerForFolder (some folder)).Folder = some folder ∧
      (newReadContainerForFolder (some folder)).File = none) ∧
    (∀ (file : File) (stream : Option StreamHandler),
      (newReadContainerForFile (some file) stream).Type = RT_File ∧
      (newReadContainerForFile (some file) stream).File = some file ∧
      (newReadContainerForFile (some file) stream).Folder = none) ∧
    RT_Folder ≠ RT_File ∧
    (∀ (folder : Option Folder),
      ¬ ((newReadContainerForFolder folder).folder.isSome = true ∧
        (newReadContainerForFolder folder).file.isSome = true)) ∧
    (∀ (file : Option File) (stream : Option StreamHandler),
      ¬ ((newReadContainerForFile file stream).folder.isSome = true ∧
        (newReadContainerForFile file stream).file.isSome = true)) := by
  refine ⟨fun folder => ⟨rfl, rfl, rfl⟩, fun file stream => ⟨rfl, rfl, rfl⟩, by decide, ?_, ?_⟩
  · intro folder h
    simp [newReadContainerForFolder] at h
  · intro file stream h
    simp [newReadContainerForFile] at h

/-! ## The wire error -/

/-- C18. The wire error decoder falls back to the sentinel: `NewError` always
returns an `Error`; when the JSON decoding of the input fails with a message,
the result has code 999 and that message (non-empty when the failure's message
is); when the decoding succeeds, the result is the decoded pair. -/
theorem newError_fallback (decode : JsonDecoder) (reader : Str) :
    (∀ (msg : Str), decode reader = Except.error msg →
      NewError decode reader = { Code := 999, Message := msg } ∧
      (msg ≠ [] → (NewError decode reader).Message ≠ [])) ∧
    (∀ (e : Error), decode reader = Except.ok e → NewError decode reader = e) := by
  refine ⟨fun msg h => ?_, fun e h => ?_⟩
  · have h1 : NewError decode reader = { Code := 999, Message := msg } := by
      simp only [NewError, h]
    exact ⟨h1, fun hne => by rw [h1]; exact hne⟩
  · simp only [NewError, h]

theorem newError_fallback_witness :
    NewError decodeFlat notFoundPayload = { Code := 404, Message := "not found".data } ∧
    (NewError decodeFlat "oops".data).Code = 999 ∧
    (NewError decodeFlat "oops".data).Message ≠ [] :=
  ⟨(newError_fallback decodeFlat notFoundPayload).2 { Code := 404, Message := "not found".data }
      rfl,
    congrArg Error.Code ((newError_fallback decodeFlat "oops".data).1
      "invalid character looking for beginning of value".data rfl).1,
    ((newError_fallback decodeFlat "oops".data).1
      "invalid character looking for beginning of value".data rfl).2 (by decide)⟩

/-! ## Create, then delete -/

/-- Appending an entry of a new name to a strictly sorted list, sorting,
and dropping the entry the range loop then stops at gives the list back. -/
theorem insert_remove {α : Type} (key : α → Str) (name : Str) (l : List α) (x : α)
    (hk : key x = name) (hs : (l.map key).Sorted (· < ·)) (hn : name ∉ l.map key) :
    ∃ i, rangeFind key name ((l ++ [x]).insertionSort (nameLE key)) = some (i, x) ∧
      (((l ++ [x]).insertionSort (nameLE key)).take i ++
        ((l ++ [x]).insertionSort (nameLE key)).drop (i + 1)).insertionSort (nameLE key) = l := by
  obtain ⟨i, hi⟩ := rangeFind_of_perm key name l _ x (sort_perm key (l ++ [x])) hk hn
  refine ⟨i, hi, ?_⟩
  have hstrict : (((l ++ [x]).insertionSort (nameLE key)).map key).Sorted (· < ·) :=
    strict_insert key l x hs (hk ▸ hn)
  have hfil := remove_eq_filter key name _ i x hi hstrict.nodup
  rw [sort_eq_self key _ (sorted_remove key _ i hstrict.le_of_lt), hfil]
  have hperm : (((l ++ [x]).insertionSort (nameLE key)).filter (fun y => key y ≠ name)).Perm l := by
    refine ((sort_perm key (l ++ [x])).filter _).trans ?_
    rw [List.filter_append, List.filter_cons]
    simp only [hk, ne_eq, not_true_eq_false, decide_False, Bool.false_eq_true, if_false,
      List.filter_nil, List.append_nil]
    rw [List.filter_eq_self.2]
    intro y hy
    have : key y ≠ name := fun h => hn (List.mem_map.2 ⟨y, hy, h⟩)
    simpa using this
  have hsorted1 : List.Pairwise (fun a b => key a < key b)
      (((l ++ [x]).insertionSort (nameLE key)).filter (fun y => key y ≠ name)) :=
    List.Pairwise.sublist (List.filter_sublist _)
      ((List.pairwise_map (f := key) (R := (· < ·))).1 hstrict)
  have hsorted2 : List.Pairwise (fun a b => key a < key b) l :=
    (List.pairwise_map (f := key) (R := (· < ·))).1 hs
  haveI : IsAntisymm α (fun a b => key a < key b) :=
    ⟨fun a b h1 h2 => absurd h1 (lt_asymm h2)⟩
  exact List.eq_of_perm_of_sorted hperm hsorted1 hsorted2

/-- C19, as the code has it. Create/delete round trip: in a folder whose
`Folders` are sorted by name with pairwise different names, for a valid
single-segment name used by no child and handlers that accept, `NewFolder`
followed by `DeleteFolder` both succeed and leave the folder, its `Folders` and
`Files` included, as it was; and in a folder whose `Files` are sorted by name
with pairwise different names, so do `NewFile` followed by `DeleteFile`. -/
theorem create_delete_round_trip (f : Folder) (name : Str) (hv : ValidName name)
    (hu : name ∉ childNames f) :
    ((folderNames f).Sorted (· ≤ ·) → (folderNames f).Nodup →
      ∀ (h1 : FolderShadow → Option Err) (h2 : Str → Option Err),
        h1 { Full := Join f.Full name, Name := name } = none → h2 (Join f.Full name) = none →
        (f.NewFolder name h1).err = none ∧
        ((f.NewFolder name h1).folder.DeleteFolder name h2).err = none ∧
        ((f.NewFolder name h1).folder.DeleteFolder name h2).folder = f) ∧
    ((fileNames f).Sorted (· ≤ ·) → (fileNames f).Nodup →
      ∀ (now : Time) (h : File → Option Err), h (newFile name now) = none →
        (f.NewFile name now).err = none ∧
        ((f.NewFile name now).folder.DeleteFile name h).err = none ∧
        ((f.NewFile name now).folder.DeleteFile name h).folder = f) := by
  have hn : normName name = name := normName_valid hv
  have hv2 : ValidName (normName name) := by rw [hn]; exact hv
  have hu2 : normName name ∉ childNames f := by rw [hn]; exact hu
  refine ⟨fun hs hnd h1 h2 hok1 hok2 => ?_, fun hs hnd now h hok => ?_⟩
  · have hnf : name ∉ f.Folders.map FolderShadow.Name := fun hm =>
      hu (List.mem_append.2 (Or.inl hm))
    obtain ⟨i, hi, hback⟩ := insert_remove FolderShadow.Name name f.Folders
      { Full := Join f.Full name, Name := name } rfl (hs.lt_of_le hnd) hnf
    rw [newFolder_checked f name h1 hv2 hu2, newFolderShadow_norm f name hv2, hn, hok1]
    refine ⟨rfl, ?_⟩
    simp only
    rw [deleteFolder_found _ name h2 i { Full := Join f.Full name, Name := name }
      (by rw [shadows_sort_eq]; exact hi)]
    simp only [hok2]
    refine ⟨trivial, ?_⟩
    rw [shadows_sort_eq, shadows_sort_eq, hback]
  · have hnf : name ∉ f.Files.map File.Name := fun hm =>
      hu (List.mem_append.2 (Or.inr hm))
    obtain ⟨i, hi, hback⟩ := insert_remove File.Name name f.Files
      (newFile name now) rfl (hs.lt_of_le hnd) hnf
    rw [newFile_checked f name now hv2 hu2, hn]
    refine ⟨rfl, ?_⟩
    simp only
    rw [deleteFile_found _ name h i (newFile name now)
      (by rw [files_sort_eq]; exact hi)]
    simp only [hok]
    refine ⟨trivial, ?_⟩
    rw [files_sort_eq, files_sort_eq, hback]

theorem create_delete_round_trip_witness :
    ((sampleFolder.NewFolder "c".data succeeding).err = none ∧
      ((sampleFolder.NewFolder "c".data succeeding).folder.DeleteFolder "c".data
        succeeding).err = none ∧
      ((sampleFolder.NewFolder "c".data succeeding).folder.DeleteFolder "c".data
        succeeding).folder = sampleFolder) ∧
    ((sampleFolder.NewFile "c".data 2).err = none ∧
      ((sampleFolder.NewFile "c".data 2).folder.DeleteFile "c".data succeeding).err = none ∧
      ((sampleFolder.NewFile "c".data 2).folder.DeleteFile "c".data succeeding).folder =
        sampleFolder) :=
  ⟨(create_delete_round_trip sampleFolder "c".data (by decide) (by decide)).1
      (by decide) (by decide) succeeding succeeding rfl rfl,
    (create_delete_round_trip sampleFolder "c".data (by decide) (by decide)).2
      (by decide) (by decide) 2 succeeding rfl⟩

/-! ## The frame of the mutations -/

/-- C20. Frame of the mutations: every call of `NewFolder`, `NewFile`,
`ReplaceFile`, `DeleteFolder` or `DeleteFile`, successful or not, leaves
`Full`, `Name`, `Created` and `Modified` as they were; `NewFolder` and
`DeleteFolder` leave `Files` as it was, and `NewFile`, `ReplaceFile` and
`DeleteFile` leave `Folders` as it was. -/
theorem mutation_frame (f : Folder) (name : Str) :
    (∀ (h : FolderShadow → Option Err),
      (f.NewFolder name h).folder.Full = f.Full ∧ (f.NewFolder name h).folder.Name = f.Name ∧
      (f.NewFolder name h).folder.Created = f.Created ∧
      (f.NewFolder name h).folder.Modified = f.Modified ∧
      (f.NewFolder name h).folder.Files = f.Files) ∧
    (∀ (now : Time),
      (f.NewFile name now).folder.Full = f.Full ∧ (f.NewFile name now).folder.Name = f.Name ∧
      (f.NewFile name now).folder.Created = f.Created ∧
      (f.NewFile name now).folder.Modified = f.Modified ∧
      (f.NewFile name now).folder.Folders = f.Folders) ∧
    (∀ (file : Option File),
      (f.ReplaceFile name file).Full = f.Full ∧ (f.ReplaceFile name file).Name = f.Name ∧
      (f.ReplaceFile name file).Created = f.Created ∧
      (f.ReplaceFile name file).Modified = f.Modified ∧
      (f.ReplaceFile name file).Folders = f.Folders) ∧
    (∀ (h : Str → Option Err),
      (f.DeleteFolder name h).folder.Full = f.Full ∧
      (f.DeleteFolder name h).folder.Name = f.Name ∧
      (f.DeleteFolder name h).folder.Created = f.Created ∧
      (f.DeleteFolder name h).folder.Modified = f.Modified ∧
      (f.DeleteFolder name h).folder.Files = f.Files) ∧
    (∀ (h : File → Option Err),
      (f.DeleteFile name h).folder.Full = f.Full ∧ (f.DeleteFile name h).folder.Name = f.Name ∧
      (f.DeleteFile name h).folder.Created = f.Created ∧
      (f.DeleteFile name h).folder.Modified = f.Modified ∧
      (f.DeleteFile name h).folder.Folders = f.Folders) := by
  refine ⟨fun h => ?_, fun now => ?_, fun file => ?_, fun h => ?_, fun h => ?_⟩
  · by_cases hv : ValidName (normName name)
    · by_cases hu : normName name ∈ childNames f
      · rw [newFolder_used f name h hv hu]
        exact ⟨rfl, rfl, rfl, rfl, rfl⟩
      · rw [newFolder_checked f name h hv hu]
        cases h (NewFolderShadow (Join f.Full (normName name))) with
        | none => exact ⟨rfl, rfl, rfl, rfl, rfl⟩
        | some err => exact ⟨rfl, rfl, rfl, rfl, rfl⟩
    · rw [newFolder_invalid f name h hv]
      exact ⟨rfl, rfl, rfl, rfl, rfl⟩
  · by_cases hv : ValidName (normName name)
    · by_cases hu : normName name ∈ childNames f
      · rw [newFile_used f name now hv hu]
        exact ⟨rfl, rfl, rfl, rfl, rfl⟩
      · rw [newFile_checked f name now hv hu]
        exact ⟨rfl, rfl, rfl, rfl, rfl⟩
    · rw [newFile_invalid f name now hv]
      exact ⟨rfl, rfl, rfl, rfl, rfl⟩
  · cases file with
    | none =>
      rw [replaceFile_none]
      cases rangeFind File.Name name f.Files with
      | none => exact ⟨rfl, rfl, rfl, rfl, rfl⟩
      | some p => exact ⟨rfl, rfl, rfl, rfl, rfl⟩
    | some r =>
      rw [replaceFile_some]
      cases rangeFind File.Name name f.Files with
      | none => exact ⟨rfl, rfl, rfl, rfl, rfl⟩
      | some p => exact ⟨rfl, rfl, rfl, rfl, rfl⟩
  · cases hr : rangeFind FolderShadow.Name name f.Folders with
    | none =>
      rw [deleteFolder_absent f name h
        (fun hm => by rw [folderNames, ← rangeFind_isSome, hr] at hm; simp at hm)]
      exact ⟨rfl, rfl, rfl, rfl, rfl⟩
    | some p =>
      obtain ⟨i, s⟩ := p
      rw [deleteFolder_found f name h i s hr]
      cases h (Join f.Full name) with
      | none => exact ⟨rfl, rfl, rfl, rfl, rfl⟩
      | some err => exact ⟨rfl, rfl, rfl, rfl, rfl⟩
  · cases hr : rangeFind File.Name name f.Files with
    | none =>
      rw [deleteFile_absent f name h
        (fun hm => by rw [fileNames, ← rangeFind_isSome, hr] at hm; simp at hm)]
      exact ⟨rfl, rfl, rfl, rfl, rfl⟩
    | some p =>
      obtain ⟨i, sf⟩ := p
      rw [deleteFile_found f name h i sf hr]
      cases h sf with
      | none => exact ⟨rfl, rfl, rfl, rfl, rfl⟩
      | some err => exact ⟨rfl, rfl, rfl, rfl, rfl⟩

/-! ## `CloneInto` -/

/-- Storing into a cell what it holds changes nothing. -/
theorem set_same {α : Type} (l : List α) (i : Nat) (x : α) (h : l[i]? = some x) :
    l.set i x = l := by
  induction l generalizing i with
  | nil => rfl
  | cons y ys ih =>
    cases i with
    | zero =>
      simp only [List.getElem?_cons_zero, Option.some.injEq] at h
      simp [h]
    | succ i =>
      simp only [List.getElem?_cons_succ] at h
      simp [ih i h]

theorem lt_length_of_getElem? {α : Type} (l : List α) (i : Nat) (x : α)
    (h : l[i]? = some x) : i < l.length := by
  obtain ⟨hlt, -⟩ := List.getElem?_eq_some.1 h
  exact hlt

/-- What the copying loop does when every source pointer names a cell and the
target is a folder object: it returns, only the `Files` of the target object
change, by the addresses it appends; the cells there were keep their contents,
the appended addresses are those of fresh cells, and the cell behind the `i`-th
of them holds the record behind the `i`-th source pointer. -/
theorem cloneLoop_spec (src : List Addr) (target : Addr) (mem : Memory) (t : FolderRef)
    (ht : mem.folders[target]? = some t) (hvalid : ∀ a ∈ src, a < mem.files.length) :
    ∃ (heap2 : FileHeap) (files : List Addr),
      cloneLoop target src mem =
        some { folders := mem.folders.set target { t with Files := t.Files ++ files },
               files := heap2 } ∧
      files.length = src.length ∧
      (∀ (a : Addr), a < mem.files.length → heap2[a]? = mem.files[a]?) ∧
      (∀ b ∈ files, mem.files.length ≤ b) ∧
      (∀ (i : Nat) (a : Addr), src[i]? = some a →
        ∃ (b : Addr) (r : File),
          files[i]? = some b ∧ mem.files[a]? = some r ∧ heap2[b]? = some r) := by
  induction src generalizing mem t with
  | nil =>
    refine ⟨mem.files, [], ?_, rfl, fun _ _ => rfl, by simp, by simp⟩
    simp only [cloneLoop, List.append_nil]
    rw [set_same mem.folders target t ht]
  | cons p ps ih =>
    have hp : p < mem.files.length := hvalid p (List.mem_cons_self _ _)
    have hr : mem.files[p]? = some mem.files[p] := List.getElem?_eq_getElem hp
    have hlen : (mem.files ++ [mem.files[p]]).length = mem.files.length + 1 := by simp
    have htlt : target < mem.folders.length := lt_length_of_getElem? _ _ _ ht
    have ht2 : (mem.folders.set target
        { t with Files := t.Files ++ [mem.files.length] })[target]? =
        some { t with Files := t.Files ++ [mem.files.length] } :=
      List.getElem?_set_self htlt
    have hvalid2 : ∀ a ∈ ps, a < (mem.files ++ [mem.files[p]]).length := by
      intro a ha
      rw [hlen]
      exact Nat.lt_succ_of_lt (hvalid a (List.mem_cons_of_mem _ ha))
    obtain ⟨heap2, files, h1, h2, h3, h4, h5⟩ :=
      ih { folders := mem.folders.set target { t with Files := t.Files ++ [mem.files.length] },
           files := mem.files ++ [mem.files[p]] }
        { t with Files := t.Files ++ [mem.files.length] } ht2 hvalid2
    have hframe : ∀ (a : Addr), a < mem.files.length → heap2[a]? = mem.files[a]? := by
      intro a ha
      rw [h3 a (by rw [hlen]; exact Nat.lt_succ_of_lt ha), List.getElem?_append_left ha]
    refine ⟨heap2, mem.files.length :: files, ?_, ?_, hframe, ?_, ?_⟩
    · simp only [cloneLoop, hr, ht]
      rw [h1, List.set_set]
      simp only [List.append_assoc, List.singleton_append]
    · simp [h2]
    · intro b hb
      rcases List.mem_cons.1 hb with rfl | hb
      · exact Nat.le_refl _
      · have := h4 b hb
        rw [hlen] at this
        exact Nat.le_of_succ_le this
    · intro i a hia
      cases i with
      | zero =>
        simp only [List.getElem?_cons_zero, Option.some.injEq] at hia
        subst hia
        refine ⟨mem.files.length, mem.files[p], by simp, hr, ?_⟩
        rw [h3 mem.files.length (by rw [hlen]; exact Nat.lt_succ_self _),
          List.getElem?_concat_length]
      | succ i =>
        simp only [List.getElem?_cons_succ] at hia
        obtain ⟨b, r, hb1, hb2, hb3⟩ := h5 i a hia
        have ha : a < mem.files.length :=
          hvalid a (List.mem_cons_of_mem _ (List.getElem?_mem hia))
        rw [List.getElem?_append_left ha] at hb2
        exact ⟨b, r, by simpa using hb1, hb2, hb3⟩

/-- C13, as the code has it. `CloneInto` deep-copies the files into a target
that is another object than the source: for a source folder whose file
pointers name cells and a target folder at a different address, the call
returns; the target then has as many file pointers as the source, the `i`-th
naming a cell that holds the record of the source's `i`-th file, whatever the
target held before; a later write through a file pointer of the source leaves
every record of the target as it is; and the source folder and the cells that
existed before keep their contents. -/
theorem cloneInto_deep_copies (mem : Memory) (f target : Addr) (src t : FolderRef)
    (hsrc : mem.folders[f]? = some src) (htgt : mem.folders[target]? = some t)
    (hne : f ≠ target) (hvalid : ∀ a ∈ src.Files, a < mem.files.length) :
    ∃ (mem2 : Memory) (t2 : FolderRef),
      Folder.CloneInto mem f (some target) = some mem2 ∧
      mem2.folders[target]? = some t2 ∧
      t2.Files.length = src.Files.length ∧
      (∀ (i : Nat) (a : Addr), src.Files[i]? = some a →
        ∃ (b : Addr) (r : File),
          t2.Files[i]? = some b ∧ mem.files[a]? = some r ∧ mem2.files[b]? = some r) ∧
      (∀ a ∈ src.Files, ∀ (v : File), ∀ b ∈ t2.Files,
        (mem2.files.set a v)[b]? = mem2.files[b]?) ∧
      mem2.folders[f]? = some src ∧
      (∀ (a : Addr), a < mem.files.length → mem2.files[a]? = mem.files[a]?) := by
  have htlt : target < mem.folders.length := lt_length_of_getElem? _ _ _ htgt
  have hne2 : target ≠ f := fun h => hne h.symm
  have hsrc1 : (mem.folders.set target
      { t with Folders := copySlice t.Folders src.Folders, Files := [] })[f]? = some src := by
    rw [List.getElem?_set_ne hne2]
    exact hsrc
  have htgt1 : (mem.folders.set target
      { t with Folders := copySlice t.Folders src.Folders, Files := [] })[target]? =
      some { t with Folders := copySlice t.Folders src.Folders, Files := [] } :=
    List.getElem?_set_self htlt
  obtain ⟨heap2, files, h1, h2, h3, h4, h5⟩ := cloneLoop_spec src.Files target
    { folders := mem.folders.set target
        { t with Folders := copySlice t.Folders src.Folders, Files := [] },
      files := mem.files }
    { t with Folders := copySlice t.Folders src.Folders, Files := [] } htgt1 hvalid
  simp only [List.nil_append, List.set_set] at h1
  refine ⟨{ folders := mem.folders.set target
              { t with Folders := copySlice t.Folders src.Folders, Files := files },
            files := heap2 },
    { t with Folders := copySlice t.Folders src.Folders, Files := files },
    ?_, List.getElem?_set_self htlt, h2, h5, ?_, ?_, h3⟩
  · simp only [Folder.CloneInto, hsrc, htgt, hsrc1]
    exact h1
  · intro a ha v b hb
    have h6 : a < mem.files.length := hvalid a ha
    have h7 : mem.files.length ≤ b := h4 b hb
    exact List.getElem?_set_ne (Nat.ne_of_lt (Nat.lt_of_lt_of_le h6 h7))
  · show (mem.folders.set target _)[f]? = some src
    rw [List.getElem?_set_ne hne2]
    exact hsrc

theorem cloneInto_deep_copies_witness :
    ∃ (mem2 : Memory) (t2 : FolderRef),
      Folder.CloneInto cloneMemory 0 (some 1) = some mem2 ∧
      mem2.folders[1]? = some t2 ∧
      t2.Files.length = cloneSource.Files.length ∧
      (∀ (i : Nat) (a : Addr), cloneSource.Files[i]? = some a →
        ∃ (b : Addr) (r : File),
          t2.Files[i]? = some b ∧ cloneMemory.files[a]? = some r ∧ mem2.files[b]? = some r) ∧
      (∀ a ∈ cloneSource.Files, ∀ (v : File), ∀ b ∈ t2.Files,
        (mem2.files.set a v)[b]? = mem2.files[b]?) ∧
      mem2.folders[0]? = some cloneSource ∧
      (∀ (a : Addr), a < cloneMemory.files.length → mem2.files[a]? = cloneMemory.files[a]?) :=
  cloneInto_deep_copies cloneMemory 0 1 cloneSource cloneTarget rfl rfl (by decide)
    (by decide)

/-- C13 fails as stated: cloned into itself, the source folder, which had one
file, is left without files, and nothing was cloned. -/
theorem cloneInto_self_counterexample :
    selfMemory.folders[0]? = some cloneSource ∧
    cloneSource.Files.length = 1 ∧
    Folder.CloneInto selfMemory 0 (some 0) =
      some { folders := [{ cloneSource with Files := [] }], files := cloneHeap } := by
  decide

/-- C12, at a freshly constructed target: the source has the child folder `a`,
the target's `Folders` is empty before the call and still empty after it,
while the file was cloned. -/
theorem cloneInto_fresh_target :
    cloneSource.Folders = [{ Full := "/x/a".data, Name := "a".data }] ∧
    Folder.CloneInto cloneMemory 0 (some 1) =
      some { folders := [cloneSource, { cloneTarget with Folders := [], Files := [1] }],
             files := [newFile "b".data 1, newFile "b".data 1] } := by
  decide

/-- C19 fails as stated: the folder's `Folders` are sorted with different
names and `c` is a valid name no child uses, yet `NewFile("c")` followed by
`DeleteFile("c")`, both successful, leave the files `z`, `b` in the order `b`,
`z`. -/
theorem create_delete_round_trip_counterexample :
    (folderNames unsortedFolder).Sorted (· ≤ ·) ∧ (folderNames unsortedFolder).Nodup ∧
    ValidName "c".data ∧ "c".data ∉ childNames unsortedFolder ∧
    (unsortedFolder.NewFile "c".data 2).err = none ∧
    ((unsortedFolder.NewFile "c".data 2).folder.DeleteFile "c".data succeeding).err = none ∧
    unsortedFolder.Files = [newFile "z".data 1, newFile "b".data 1] ∧
    ((unsortedFolder.NewFile "c".data 2).folder.DeleteFile "c".data succeeding).folder.Files =
      [newFile "b".data 1, newFile "z".data 1] := by
  decide

end Dfs
